import Mathlib

/-!
Verification development for the zlayout computational-geometry and
spatial-indexing library.

The C++ sources are shallowly embedded:

* `double` arithmetic is modelled exactly: by `ℚ` for the code paths that
  use only field operations and comparisons (rectangle algebra, the
  quadtree, the point hash grid), and by `ℝ` for the code paths that use
  `sqrt` / `acos` / `exp` (polygon distances, sharp angles, the simulated
  annealing optimizer).  Geometry records are polymorphic over a
  `LinearOrderedField` so both instantiations share one translation of the
  source.
* `uint32_t` / `uint64_t` arithmetic (the Z-order curve) is modelled by `ℕ`
  with explicit `% 2 ^ 32` / `% 2 ^ 64` reductions at the points where the
  C++ types truncate; inside the mask cascades no intermediate value can
  reach `2 ^ 64`, so plain `ℕ` operations agree with the machine ones.
* The Mersenne-twister RNG and the `std::uniform_*_distribution` adapters
  of the optimizer are modelled by oracle streams: each draw reads the next
  element of an infinite stream recorded in the optimizer state.  The
  claims treated here (determinism, monotonicity of the incumbent) do not
  depend on the distribution of the drawn values.
* Exceptions (`std::runtime_error`, `std::invalid_argument`) become
  `Except String` results; `throw` becomes `Except.error`.
-/

namespace ZLayout

/-- Geometric point, `zlayout::geometry::Point` (point.hpp): an (x, y) pair
of doubles. -/
structure Point (α : Type) where
  x : α
  y : α
deriving DecidableEq, Repr

/-- Axis-aligned rectangle, `zlayout::geometry::Rectangle` (rectangle.hpp):
minimum corner plus width/height. -/
structure Rectangle (α : Type) where
  x : α
  y : α
  width : α
  height : α
deriving DecidableEq, Repr

variable {α : Type} [LinearOrderedField α]

/-- `Point::TOLERANCE = 1e-10` (point.hpp). -/
def TOLERANCE : α := 1 / 10 ^ 10

namespace Point

/-- `Point::operator==` (point.cpp): coordinatewise comparison with
absolute tolerance `TOLERANCE`. -/
def beq (p other : Point α) : Bool :=
  decide (|p.x - other.x| < TOLERANCE) && decide (|p.y - other.y| < TOLERANCE)

/-- `Point::operator+` (point.cpp). -/
def add (p other : Point α) : Point α := ⟨p.x + other.x, p.y + other.y⟩

/-- `Point::operator-` (point.cpp). -/
def sub (p other : Point α) : Point α := ⟨p.x - other.x, p.y - other.y⟩

/-- `Point::operator*` (point.cpp): scalar multiplication. -/
def smul (p : Point α) (scalar : α) : Point α := ⟨p.x * scalar, p.y * scalar⟩

/-- `Point::dot` (point.cpp). -/
def dot (p other : Point α) : α := p.x * other.x + p.y * other.y

/-- `Point::cross` (point.cpp): scalar 2-D cross product. -/
def cross (p other : Point α) : α := p.x * other.y - p.y * other.x

/-- `Point::magnitude_squared` (point.cpp). -/
def magnitude_squared (p : Point α) : α := p.x * p.x + p.y * p.y

/-- `midpoint` utility (point.cpp): coordinatewise average. -/
def mid (p1 p2 : Point α) : Point α := ⟨(p1.x + p2.x) * (1 / 2), (p1.y + p2.y) * (1 / 2)⟩

/-- `std::round` as used by `PointHash` (point.cpp): rounding half away
from zero, the C library semantics. -/
def roundHalfAwayFromZero (q : ℚ) : ℤ :=
  if 0 ≤ q then ⌊q + 1 / 2⌋ else ⌈q - 1 / 2⌉

/-- The value `std::round(coord / TOLERANCE) * TOLERANCE` that
`PointHash::operator()` (point.cpp) feeds to `std::hash<double>` for one
coordinate. -/
def hashGridValue (coord : ℚ) : ℚ :=
  (roundHalfAwayFromZero (coord / TOLERANCE) : ℚ) * TOLERANCE

/-- The pair of snapped coordinates `PointHash::operator()` (point.cpp)
feeds to `std::hash<double>` before combining. -/
def hashInput (p : Point ℚ) : ℚ × ℚ :=
  (hashGridValue p.x, hashGridValue p.y)

/-- `PointHash::operator()` (point.cpp): hash each snapped coordinate with
`std::hash<double>` (an unspecified function `hasher`, injective on finite
doubles in the mainstream standard libraries) and combine with
`h1 ^ (h2 << 1)`. -/
def pointHash (hasher : ℚ → ℕ) (p : Point ℚ) : ℕ :=
  hasher (hashGridValue p.x) ^^^ (hasher (hashGridValue p.y) <<< 1)

end Point

namespace Rectangle

/-- `Rectangle::is_empty` (rectangle.cpp): degenerate if width or height is
below `TOLERANCE`. -/
def is_empty (r : Rectangle α) : Bool :=
  decide (r.width < TOLERANCE) || decide (r.height < TOLERANCE)

/-- `Rectangle::area` (rectangle.hpp). -/
def area (r : Rectangle α) : α := r.width * r.height

/-- `Rectangle::contains_point` (rectangle.cpp): inclusive bounds. -/
def contains_point (r : Rectangle α) (point : Point α) : Bool :=
  decide (point.x ≥ r.x) && decide (point.x ≤ r.x + r.width) &&
  decide (point.y ≥ r.y) && decide (point.y ≤ r.y + r.height)

/-- `Rectangle::contains_rectangle` (rectangle.cpp): inclusive bounds. -/
def contains_rectangle (r other : Rectangle α) : Bool :=
  decide (other.x ≥ r.x) && decide (other.y ≥ r.y) &&
  decide (other.x + other.width ≤ r.x + r.width) &&
  decide (other.y + other.height ≤ r.y + r.height)

/-- `Rectangle::intersects` (rectangle.cpp): strict overlap — touching
edges do not intersect. -/
def intersects (r other : Rectangle α) : Bool :=
  !(decide (other.x ≥ r.x + r.width) || decide (other.x + other.width ≤ r.x) ||
    decide (other.y ≥ r.y + r.height) || decide (other.y + other.height ≤ r.y))

/-- `Rectangle::union_with` (rectangle.cpp): if either operand is empty the
other is returned unchanged; otherwise the bounding box of the two. -/
def union_with (r other : Rectangle α) : Rectangle α :=
  if r.is_empty then other
  else if other.is_empty then r
  else
    let left := min r.x other.x
    let right := max (r.x + r.width) (other.x + other.width)
    let bottom := min r.y other.y
    let top := max (r.y + r.height) (other.y + other.height)
    ⟨left, bottom, right - left, top - bottom⟩

/-- `Rectangle::bounding_box(const std::vector<Rectangle>&)`
(rectangle.cpp): fold `union_with` over the list, starting from the first
element; empty input gives the zero rectangle. -/
def bounding_box : List (Rectangle α) → Rectangle α
  | [] => ⟨0, 0, 0, 0⟩
  | r :: rest => rest.foldl (fun acc s => acc.union_with s) r

end Rectangle

/-! ### Quadtree (quadtree.hpp, template implementation)

Specialized at `T = geometry::Rectangle` with the identity bounding-box
function — the `RectangleQuadTree` instantiation built by
`create_rectangle_quadtree`.  Coordinates are `ℚ`, so every operation is
decidable.  A node is a leaf until `subdivide` runs (`divided = false`),
after which it owns exactly four children in the order NW, NE, SW, SE.

`QuadTreeNode::insert` recurses into children that were freshly created by
`subdivide`, so its recursion is not structural; the depth of that
recursion is bounded by `max_depth - depth`, and the embedding makes that
bound explicit as `fuel` (top-level calls pass `max_depth + 1`, which a
node at depth `0` can never exhaust because `depth` increases at every
level).  The fuel-exhausted branch mirrors the "store at this level"
fallback and is unreachable from `QuadTree.insert`. -/

/-- `QuadTreeNode<T>` (quadtree.hpp): boundary, objects stored at this
node, node depth, and — once `subdivide` has run — four children. -/
inductive QuadTreeNode where
  | leaf (boundary : Rectangle ℚ) (objects : List (Rectangle ℚ)) (depth : ℕ)
  | node (boundary : Rectangle ℚ) (objects : List (Rectangle ℚ)) (depth : ℕ)
      (nw ne sw se : QuadTreeNode)
deriving DecidableEq, Repr

namespace QuadTreeNode

/-- The node's boundary rectangle. -/
def boundary : QuadTreeNode → Rectangle ℚ
  | leaf b _ _ => b
  | node b _ _ _ _ _ _ => b

/-- `QuadTreeNode::subdivide` (quadtree.hpp): the four equal quadrants of
`b`, created in the order NW, NE, SW, SE, each at depth `d + 1`. -/
def subdivideChild (b : Rectangle ℚ) (d : ℕ) (i : ℕ) : QuadTreeNode :=
  let x := b.x
  let y := b.y
  let w := b.width / 2
  let h := b.height / 2
  match i with
  | 0 => leaf ⟨x, y + h, w, h⟩ [] (d + 1)
  | 1 => leaf ⟨x + w, y + h, w, h⟩ [] (d + 1)
  | 2 => leaf ⟨x, y, w, h⟩ [] (d + 1)
  | _ => leaf ⟨x + w, y, w, h⟩ [] (d + 1)

mutual

/-- `QuadTreeNode::insert` (quadtree.hpp): reject objects whose bounding
box misses the boundary; append when there is room and no subdivision;
otherwise subdivide (when allowed) and offer the object to each child in
order, keeping it at this level if every child rejects it or if no further
subdivision is possible. -/
def insertAux (capacity max_depth : ℕ) (fuel : ℕ) (t : QuadTreeNode)
    (o : Rectangle ℚ) : QuadTreeNode × Bool :=
  match t with
  | leaf b objs d =>
    if !(b.intersects o) then (leaf b objs d, false)
    else if objs.length < capacity then (leaf b (objs ++ [o]) d, true)
    else if d < max_depth then
      if hf : fuel = 0 then
        (node b (objs ++ [o]) d (subdivideChild b d 0) (subdivideChild b d 1)
          (subdivideChild b d 2) (subdivideChild b d 3), true)
      else
        insertIntoChildren capacity max_depth (fuel - 1) b objs d
          (subdivideChild b d 0) (subdivideChild b d 1)
          (subdivideChild b d 2) (subdivideChild b d 3) o
    else (leaf b (objs ++ [o]) d, true)
  | node b objs d c0 c1 c2 c3 =>
    if !(b.intersects o) then (node b objs d c0 c1 c2 c3, false)
    else
      if hf : fuel = 0 then (node b (objs ++ [o]) d c0 c1 c2 c3, true)
      else insertIntoChildren capacity max_depth (fuel - 1) b objs d c0 c1 c2 c3 o
termination_by (fuel, 0)
decreasing_by
  all_goals omega

/-- The `for (int i = 0; i < 4; ++i)` child-insertion loop of
`QuadTreeNode::insert` (quadtree.hpp): the first child whose subtree
accepts the object keeps it; if all four reject it the object is stored at
this level. -/
def insertIntoChildren (capacity max_depth : ℕ) (fuel : ℕ)
    (b : Rectangle ℚ) (objs : List (Rectangle ℚ)) (d : ℕ)
    (c0 c1 c2 c3 : QuadTreeNode) (o : Rectangle ℚ) : QuadTreeNode × Bool :=
  let r0 := insertAux capacity max_depth fuel c0 o
  if r0.2 then (node b objs d r0.1 c1 c2 c3, true)
  else
    let r1 := insertAux capacity max_depth fuel c1 o
    if r1.2 then (node b objs d c0 r1.1 c2 c3, true)
    else
      let r2 := insertAux capacity max_depth fuel c2 o
      if r2.2 then (node b objs d c0 c1 r2.1 c3, true)
      else
        let r3 := insertAux capacity max_depth fuel c3 o
        if r3.2 then (node b objs d c0 c1 c2 r3.1, true)
        else (node b (objs ++ [o]) d c0 c1 c2 c3, true)
termination_by (fuel, 1)
decreasing_by
  all_goals omega

end

/-- `QuadTreeNode::query_range` (quadtree.hpp): prune subtrees whose
boundary misses the range, collect objects at this node whose bounding box
intersects the range, and recurse into all four children. -/
def query_range : QuadTreeNode → Rectangle ℚ → List (Rectangle ℚ)
  | leaf b objs _, range =>
    if !(b.intersects range) then []
    else objs.filter (fun o => o.intersects range)
  | node b objs _ c0 c1 c2 c3, range =>
    if !(b.intersects range) then []
    else objs.filter (fun o => o.intersects range) ++
      query_range c0 range ++ query_range c1 range ++
      query_range c2 range ++ query_range c3 range

/-- `QuadTreeNode::get_all_objects` (quadtree.hpp): every object stored in
the subtree. -/
def get_all_objects : QuadTreeNode → List (Rectangle ℚ)
  | leaf _ objs _ => objs
  | node _ objs _ c0 c1 c2 c3 =>
    objs ++ get_all_objects c0 ++ get_all_objects c1 ++
      get_all_objects c2 ++ get_all_objects c3

end QuadTreeNode

/-- `QuadTree<T>` (quadtree.hpp): the root node plus the construction
parameters. -/
structure QuadTree where
  root : QuadTreeNode
  capacity : ℕ
  max_depth : ℕ
deriving Repr

namespace QuadTree

/-- `QuadTree::QuadTree` (quadtree.hpp): a fresh tree has a single root
leaf at depth 0. -/
def new (boundary : Rectangle ℚ) (capacity max_depth : ℕ) : QuadTree :=
  ⟨QuadTreeNode.leaf boundary [] 0, capacity, max_depth⟩

/-- `QuadTree::insert` (quadtree.hpp): delegate to the root node.  The
fuel `max_depth + 1` strictly exceeds the `max_depth - depth` recursion
bound of the source, so the fuel fallback is never taken. -/
def insert (t : QuadTree) (o : Rectangle ℚ) : QuadTree × Bool :=
  let r := QuadTreeNode.insertAux t.capacity t.max_depth (t.max_depth + 1) t.root o
  (⟨r.1, t.capacity, t.max_depth⟩, r.2)

/-- `QuadTree::query_range` (quadtree.hpp): delegate to the root node. -/
def query_range (t : QuadTree) (range : Rectangle ℚ) : List (Rectangle ℚ) :=
  t.root.query_range range

/-- Insert a whole sequence of objects in order, discarding the per-object
success flags (the driver loop used by the benchmarks and examples). -/
def insertAll (t : QuadTree) (objects : List (Rectangle ℚ)) : QuadTree :=
  objects.foldl (fun acc o => (acc.insert o).1) t

end QuadTree

/-! ### Z-order (Morton) curve (advanced_spatial.hpp, `class ZOrderCurve`)

`uint32_t` inputs are reduced `% 2 ^ 32` where the C++ parameter type
truncates; inside `interleave` the widest intermediate value is below
`2 ^ 63`, and in `encode` below `2 ^ 64`, so the `ℕ` operations coincide
with the C++ `uint64_t` ones. -/

namespace ZOrderCurve

/-- Line 1 of the `ZOrderCurve::interleave` cascade
(advanced_spatial.hpp): `(r | (r << 16)) & 0x0000FFFF0000FFFF`. -/
def ispread16 (r : ℕ) : ℕ := (r ||| (r <<< 16)) &&& 0x0000FFFF0000FFFF

/-- Line 2 of the cascade: `(r | (r << 8)) & 0x00FF00FF00FF00FF`. -/
def ispread8 (r : ℕ) : ℕ := (r ||| (r <<< 8)) &&& 0x00FF00FF00FF00FF

/-- Line 3 of the cascade: `(r | (r << 4)) & 0x0F0F0F0F0F0F0F0F`. -/
def ispread4 (r : ℕ) : ℕ := (r ||| (r <<< 4)) &&& 0x0F0F0F0F0F0F0F0F

/-- Line 4 of the cascade: `(r | (r << 2)) & 0x3333333333333333`. -/
def ispread2 (r : ℕ) : ℕ := (r ||| (r <<< 2)) &&& 0x3333333333333333

/-- Line 5 of the cascade: `(r | (r << 1)) & 0x5555555555555555`. -/
def ispread1 (r : ℕ) : ℕ := (r ||| (r <<< 1)) &&& 0x5555555555555555

/-- `ZOrderCurve::interleave` (advanced_spatial.hpp): spread the 32 bits of
`x` (a `uint32_t`, hence the `% 2 ^ 32`) to the even bit positions by the
magic-mask cascade. -/
def interleave (x : ℕ) : ℕ :=
  ispread1 (ispread2 (ispread4 (ispread8 (ispread16 (x % 2 ^ 32)))))

/-- Line 1 of the `ZOrderCurve::deinterleave` cascade
(advanced_spatial.hpp): `x & 0x5555555555555555`. -/
def dgather1 (x : ℕ) : ℕ := x &&& 0x5555555555555555

/-- Line 2 of the cascade: `(r | (r >> 1)) & 0x3333333333333333`. -/
def dgather2 (r : ℕ) : ℕ := (r ||| (r >>> 1)) &&& 0x3333333333333333

/-- Line 3 of the cascade: `(r | (r >> 2)) & 0x0F0F0F0F0F0F0F0F`. -/
def dgather4 (r : ℕ) : ℕ := (r ||| (r >>> 2)) &&& 0x0F0F0F0F0F0F0F0F

/-- Line 4 of the cascade: `(r | (r >> 4)) & 0x00FF00FF00FF00FF`. -/
def dgather8 (r : ℕ) : ℕ := (r ||| (r >>> 4)) &&& 0x00FF00FF00FF00FF

/-- Line 5 of the cascade: `(r | (r >> 8)) & 0x0000FFFF0000FFFF`. -/
def dgather16 (r : ℕ) : ℕ := (r ||| (r >>> 8)) &&& 0x0000FFFF0000FFFF

/-- Line 6 of the cascade: `(r | (r >> 16)) & 0x00000000FFFFFFFF`. -/
def dgather32 (r : ℕ) : ℕ := (r ||| (r >>> 16)) &&& 0x00000000FFFFFFFF

/-- `ZOrderCurve::deinterleave` (advanced_spatial.hpp): gather the even
bits of `x` back into a 32-bit value. -/
def deinterleave (x : ℕ) : ℕ :=
  dgather32 (dgather16 (dgather8 (dgather4 (dgather2 (dgather1 x)))))

/-- `ZOrderCurve::encode` (advanced_spatial.hpp): interleave `x` into the
even and `y` into the odd bit positions. -/
def encode (x y : ℕ) : ℕ :=
  interleave x ||| (interleave y <<< 1)

/-- `ZOrderCurve::decode` (advanced_spatial.hpp): recover the coordinate
pair from a Morton key (a `uint64_t`, hence the `% 2 ^ 64`). -/
def decode (z : ℕ) : ℕ × ℕ :=
  (deinterleave (z % 2 ^ 64), deinterleave ((z % 2 ^ 64) >>> 1))

end ZOrderCurve

/-! ### IP-block hierarchy (advanced_spatial.hpp / advanced_spatial.cpp)

`IPBlock` owns its sub-blocks, so it embeds as a tree.  The mutating
`create_ip_block` (which follows the pointer returned by `find_block`)
becomes a functional update at the first match of a pre-order search, the
order in which the source's recursive lambda visits blocks.  The leaf
spatial indices (`block_indices` / `rtree_indices`) do not participate in
the block-name logic and are omitted from this embedding. -/

/-- `IPBlock` (advanced_spatial.hpp): name, rectangular boundary, nesting
level and owned sub-blocks (`component_ids` plays no role in the claims
about block creation and is omitted). -/
inductive IPBlock where
  | mk (name : String) (boundary : Rectangle ℚ) (level : ℕ)
      (sub_blocks : List IPBlock)

namespace IPBlock

/-- Name accessor. -/
def name : IPBlock → String
  | mk n _ _ _ => n

/-- Level accessor. -/
def level : IPBlock → ℕ
  | mk _ _ l _ => l

/-- Sub-block accessor. -/
def sub_blocks : IPBlock → List IPBlock
  | mk _ _ _ s => s

mutual

/-- The recursive lambda inside `HierarchicalSpatialIndex::find_block`
(advanced_spatial.cpp): pre-order search for the first block with the
given name. -/
def search (b : IPBlock) (target : String) : Option IPBlock :=
  match b with
  | mk n bd l subs =>
    if n = target then some (mk n bd l subs) else searchList subs target

/-- The `for (const auto& sub_block : block->sub_blocks)` loop of the
search lambda in `find_block` (advanced_spatial.cpp). -/
def searchList (bs : List IPBlock) (target : String) : Option IPBlock :=
  match bs with
  | [] => none
  | b :: rest =>
    match search b target with
    | some found => some found
    | none => searchList rest target

end

mutual

/-- Functional image of the pointer update performed by
`create_ip_block` (advanced_spatial.cpp): append `child` to the sub-block
list of the first pre-order occurrence of `target`; the Bool reports
whether a match was found. -/
def attachChild (b : IPBlock) (target : String) (child : IPBlock) :
    IPBlock × Bool :=
  match b with
  | mk n bd l subs =>
    if n = target then (mk n bd l (subs ++ [child]), true)
    else
      let r := attachChildList subs target child
      (mk n bd l r.1, r.2)

/-- List version of `attachChild`, visiting sub-blocks in order. -/
def attachChildList (bs : List IPBlock) (target : String) (child : IPBlock) :
    List IPBlock × Bool :=
  match bs with
  | [] => ([], false)
  | b :: rest =>
    let r := attachChild b target child
    if r.2 then (r.1 :: rest, true)
    else
      let rr := attachChildList rest target child
      (b :: rr.1, rr.2)

end

mutual

/-- Number of blocks with a given name in a block tree (specification
helper for reasoning about duplicate names). -/
def countName (b : IPBlock) (target : String) : ℕ :=
  match b with
  | mk n _ _ subs => (if n = target then 1 else 0) + countNameList subs target

/-- List version of `countName`. -/
def countNameList (bs : List IPBlock) (target : String) : ℕ :=
  match bs with
  | [] => 0
  | b :: rest => countName b target + countNameList rest target

end

end IPBlock

/-- The part of `HierarchicalSpatialIndex` state that the block-creation
logic touches: the owned root block.  The constructor
(advanced_spatial.hpp) creates `IPBlock("root", world_bounds, 0)`. -/
structure HierarchicalSpatialIndex where
  root_block : IPBlock

namespace HierarchicalSpatialIndex

/-- `HierarchicalSpatialIndex::HierarchicalSpatialIndex`
(advanced_spatial.hpp): the root block exists immediately. -/
def new (world_bounds : Rectangle ℚ) : HierarchicalSpatialIndex :=
  ⟨IPBlock.mk "root" world_bounds 0 []⟩

/-- `HierarchicalSpatialIndex::find_block` (advanced_spatial.cpp): the name
`root` resolves to the root block directly; otherwise pre-order search
from the root. -/
def find_block (idx : HierarchicalSpatialIndex) (name : String) :
    Option IPBlock :=
  if name = "root" then some idx.root_block
  else idx.root_block.search name

/-- `HierarchicalSpatialIndex::create_ip_block` (advanced_spatial.cpp):
throw when the parent is missing, otherwise attach
`IPBlock(name, boundary, parent->level + 1)` under the parent.  The source
performs no duplicate-name check of any kind. -/
def create_ip_block (idx : HierarchicalSpatialIndex) (name : String)
    (boundary : Rectangle ℚ) (parent_name : String) :
    Except String HierarchicalSpatialIndex :=
  match idx.find_block parent_name with
  | none => Except.error ("Parent block not found: " ++ parent_name)
  | some parent =>
    Except.ok ⟨(idx.root_block.attachChild parent_name
      (IPBlock.mk name boundary (parent.level + 1) [])).1⟩

end HierarchicalSpatialIndex

/-! ### Real-valued geometry (point.cpp / polygon.cpp)

The polygon kernel uses `sqrt` and `acos`, so it is embedded over `ℝ`
(exact real arithmetic standing in for `double`).  These definitions are
necessarily non-executable; concrete instances are evaluated in proofs by
`simp` / `norm_num`. -/

/-- `std::numeric_limits<double>::max()`, the initial accumulator of the
minimum-distance folds in polygon.cpp. -/
def DBL_MAX : ℝ := 2 ^ 1024 - 2 ^ 971

namespace Point

/-- `Point::distance_to` (point.cpp). -/
noncomputable def distance_to (p other : Point ℝ) : ℝ :=
  let dx := p.x - other.x
  let dy := p.y - other.y
  Real.sqrt (dx * dx + dy * dy)

/-- `Point::magnitude` (point.cpp). -/
noncomputable def magnitude (p : Point ℝ) : ℝ :=
  Real.sqrt (p.x * p.x + p.y * p.y)

/-- `Point::distance_to_line` (point.cpp): distance to the segment from
`line_start` to `line_end` — project, clamp the parameter to [0, 1], and
measure to the clamped point. -/
noncomputable def distance_to_line (p line_start line_end : Point ℝ) : ℝ :=
  let line_vec := line_end.sub line_start
  let line_length_sq := line_vec.magnitude_squared
  if line_length_sq < TOLERANCE then p.distance_to line_start
  else
    let point_vec := p.sub line_start
    let t := point_vec.dot line_vec / line_length_sq
    let t := max 0 (min 1 t)
    let closest := line_start.add (line_vec.smul t)
    p.distance_to closest

end Point

/-- `zlayout::geometry::Polygon` (polygon.hpp): an ordered vertex list.
Both constructors (polygon.cpp) throw `std::invalid_argument` on fewer
than 3 vertices, so a constructed polygon always carries that bound. -/
structure Polygon where
  vertices : List (Point ℝ)
  three_le : 3 ≤ vertices.length

namespace Polygon

/-- `Polygon::edges` (polygon.cpp): consecutive vertex pairs, wrapping
from the last vertex back to the first. -/
def edges (P : Polygon) : List (Point ℝ × Point ℝ) :=
  P.vertices.zip (P.vertices.rotate 1)

/-- `Polygon::contains_point` (polygon.cpp): ray casting along +x; each
crossing edge toggles the parity.  The division is only reached when
`yi > y` and `yj > y` disagree, which forces `yj ≠ yi`. -/
noncomputable def contains_point (P : Polygon) (point : Point ℝ) : Bool :=
  (P.vertices.zip (P.vertices.rotate (P.vertices.length - 1))).foldl
    (fun inside vv =>
      let vi := vv.1
      let vj := vv.2
      if (decide (vi.y > point.y) != decide (vj.y > point.y)) &&
          decide (point.x <
            (vj.x - vi.x) * (point.y - vi.y) / (vj.y - vi.y) + vi.x) then
        !inside
      else inside)
    false

/-- `Polygon::distance_to(const Point&)` (polygon.cpp): fold the minimum
point-to-segment distance over all edges, starting from
`std::numeric_limits<double>::max()`.  There is no containment test. -/
noncomputable def distance_to_point (P : Polygon) (point : Point ℝ) : ℝ :=
  (P.edges.map (fun e => point.distance_to_line e.1 e.2)).foldl min DBL_MAX

/-- `Polygon::segment_to_segment_distance` (polygon.cpp): the least of the
four endpoint-to-opposite-segment distances (`std::min_element` over the
four candidates). -/
noncomputable def segment_to_segment_distance
    (seg1_start seg1_end seg2_start seg2_end : Point ℝ) : ℝ :=
  min (min (min (seg1_start.distance_to_line seg2_start seg2_end)
    (seg1_end.distance_to_line seg2_start seg2_end))
    (seg2_start.distance_to_line seg1_start seg1_end))
    (seg2_end.distance_to_line seg1_start seg1_end)

/-- `Polygon::find_narrow_regions` (polygon.cpp): for every edge pair
closer than the threshold, report the two *edge midpoints* together with
the segment-to-segment distance. -/
noncomputable def find_narrow_regions (P other : Polygon)
    (threshold_distance : ℝ) : List (Point ℝ × Point ℝ × ℝ) :=
  P.edges.flatMap (fun edge1 =>
    other.edges.filterMap (fun edge2 =>
      let dist := segment_to_segment_distance edge1.1 edge1.2 edge2.1 edge2.2
      if dist < threshold_distance then
        some (Point.mid edge1.1 edge1.2, Point.mid edge2.1 edge2.2, dist)
      else none))

/-- `Polygon::get_sharp_angles` (polygon.cpp): indices whose angle
`acos(clamp(v_prev·v_next / (|v_prev||v_next|), -1, 1))` is below the
threshold or above `π` minus the threshold; vertices with a degenerate
adjacent edge are skipped. -/
noncomputable def get_sharp_angles (P : Polygon) (threshold_degrees : ℝ) :
    List ℕ :=
  let n := P.vertices.length
  let threshold_radians := threshold_degrees * Real.pi / 180
  (List.range n).filter (fun i =>
    let prev_vertex := P.vertices.getD ((i + n - 1) % n) ⟨0, 0⟩
    let curr_vertex := P.vertices.getD i ⟨0, 0⟩
    let next_vertex := P.vertices.getD ((i + 1) % n) ⟨0, 0⟩
    let v1 := prev_vertex.sub curr_vertex
    let v2 := next_vertex.sub curr_vertex
    let dot_product := v1.dot v2
    let mag1 := v1.magnitude
    let mag2 := v2.magnitude
    if mag1 < TOLERANCE ∨ mag2 < TOLERANCE then false
    else
      let cos_angle := dot_product / (mag1 * mag2)
      let cos_angle := max (-1) (min 1 cos_angle)
      let angle := Real.arccos cos_angle
      decide (angle < threshold_radians) ||
        decide (angle > Real.pi - threshold_radians))

end Polygon

/-! ### Simulated-annealing layout optimizer (layout_optimizer.hpp / .cpp)

Randomness model: every `distribution(rng)` call of the source reads the
next element of an oracle stream held in the state — `rngN` for
`uniform_int_distribution` draws (reduced into range by `%`) and `rngR`
for `uniform_real_distribution` draws (used as drawn).  The C++
constructor seeds `std::mt19937` with `std::random_device{}()` and exposes
no way to choose the seed, so the streams stand for whatever that
untracked seed produces.  Where the source draws twice inside one argument
list (`Point(x + move_dist(rng), y + move_dist(rng))`), an
evaluation order (x first) is fixed here; C++ leaves it unspecified.

`cost_log` is a ghost field: it records every `evaluate_cost()` result of
the current `optimize()` run and influences nothing. -/

/-- `optimization::Component` (layout_optimizer.hpp):
`thermal_coefficient` and the pin lists never influence the optimizer
loop and are omitted. -/
structure Component where
  name : String
  shape : Rectangle ℝ
  position : Point ℝ
  power_consumption : ℝ
  is_fixed : Bool

/-- `optimization::Net` (layout_optimizer.hpp): `driver_pin` and the sink
pin names never influence the cost model and are dropped from the sink
pairs. -/
structure Net where
  name : String
  driver_component : String
  sinks : List String
  criticality : ℝ
  weight : ℝ

/-- `optimization::OptimizationConfig` (layout_optimizer.hpp), restricted
to the fields the optimizer loop reads (`max_utilization`, the aspect
bound, and the hierarchical flags are never read by
`SimulatedAnnealingOptimizer`). -/
structure OptimizationConfig where
  area_weight : ℝ
  wirelength_weight : ℝ
  timing_weight : ℝ
  power_weight : ℝ
  min_spacing : ℝ
  initial_temperature : ℝ
  cooling_rate : ℝ
  final_temperature : ℝ
  max_iterations : ℕ

/-- `optimization::CostResult` (layout_optimizer.hpp). -/
structure CostResult where
  total_cost : ℝ
  area_cost : ℝ
  wirelength_cost : ℝ
  timing_cost : ℝ
  power_cost : ℝ
  constraint_violations : ℝ

namespace Rectangle

/-- `Rectangle::distance_to(const Rectangle&)` (rectangle.cpp): zero when
intersecting, otherwise the Euclidean gap between the closest edges. -/
noncomputable def distance_to_rect (r other : Rectangle ℝ) : ℝ :=
  if r.intersects other then 0
  else
    let dx :=
      if other.x + other.width < r.x then r.x - (other.x + other.width)
      else if other.x > r.x + r.width then other.x - (r.x + r.width)
      else 0
    let dy :=
      if other.y + other.height < r.y then r.y - (other.y + other.height)
      else if other.y > r.y + r.height then other.y - (r.y + r.height)
      else 0
    Real.sqrt (dx * dx + dy * dy)

end Rectangle

/-- `SimulatedAnnealingOptimizer` state (layout_optimizer.hpp) plus the
oracle streams standing for the seeded `std::mt19937` and the ghost
`cost_log`. -/
structure SAState where
  components : List Component
  nets : List Net
  placement_area : Rectangle ℝ
  config : OptimizationConfig
  rngN : ℕ → ℕ
  rngR : ℕ → ℝ
  nN : ℕ
  nR : ℕ
  current_temperature : ℝ
  current_cost : CostResult
  best_cost : CostResult
  best_positions : List (Point ℝ)
  selected_component : ℕ
  old_position : Point ℝ
  total_moves : ℕ
  accepted_moves : ℕ
  improved_moves : ℕ
  cost_log : List CostResult

namespace SAState

/-- `component_index` lookup (layout_optimizer.cpp `add_component` writes
`component_index[name] = components.size()` before pushing, so a repeated
name resolves to the component added last). -/
def component_index (comps : List Component) (nm : String) : Option ℕ :=
  (List.range comps.length).foldl
    (fun acc i =>
      if (comps.getD i ⟨"", ⟨0, 0, 0, 0⟩, ⟨0, 0⟩, 0, false⟩).name = nm then some i
      else acc)
    none

/-- Position of the component at index `i`. -/
def positionAt (comps : List Component) (i : ℕ) : Point ℝ :=
  (comps.getD i ⟨"", ⟨0, 0, 0, 0⟩, ⟨0, 0⟩, 0, false⟩).position

/-- `SimulatedAnnealingOptimizer::calculate_wirelength_cost`
(layout_optimizer.cpp): per net, the summed driver-to-sink distances,
weighted by `weight * (1 + criticality)`; nets whose driver or sink is
unknown are skipped. -/
noncomputable def calculate_wirelength_cost (comps : List Component)
    (nets : List Net) : ℝ :=
  nets.foldl
    (fun total net =>
      match component_index comps net.driver_component with
      | none => total
      | some di =>
        let driver_pos := positionAt comps di
        let net_wirelength := net.sinks.foldl
          (fun acc sk =>
            match component_index comps sk with
            | none => acc
            | some si => acc + driver_pos.distance_to (positionAt comps si))
          0
        total + net_wirelength * net.weight * (1 + net.criticality))
    0

/-- `SimulatedAnnealingOptimizer::calculate_timing_cost`
(layout_optimizer.cpp): quadratic distance, only for nets with
criticality above 0.8. -/
noncomputable def calculate_timing_cost (comps : List Component)
    (nets : List Net) : ℝ :=
  nets.foldl
    (fun total net =>
      if net.criticality > (8 : ℝ) / 10 then
        match component_index comps net.driver_component with
        | none => total
        | some di =>
          let driver_pos := positionAt comps di
          net.sinks.foldl
            (fun acc sk =>
              match component_index comps sk with
              | none => acc
              | some si =>
                let dist := driver_pos.distance_to (positionAt comps si)
                acc + dist * dist * net.criticality)
            total
      else total)
    0

/-- `SimulatedAnnealingOptimizer::calculate_area_cost`
(layout_optimizer.cpp): excess of the component bounding box over the
placement area. -/
noncomputable def calculate_area_cost (comps : List Component)
    (placement_area : Rectangle ℝ) : ℝ :=
  match comps with
  | [] => 0
  | c0 :: _ =>
    let init : ℝ × ℝ × ℝ × ℝ :=
      (c0.position.x, c0.position.x + c0.shape.width,
       c0.position.y, c0.position.y + c0.shape.height)
    let box := comps.foldl
      (fun acc c =>
        (min acc.1 c.position.x,
         max acc.2.1 (c.position.x + c.shape.width),
         min acc.2.2.1 c.position.y,
         max acc.2.2.2 (c.position.y + c.shape.height)))
      init
    let total_area := (box.2.1 - box.1) * (box.2.2.2 - box.2.2.1)
    let target_area := placement_area.area
    if total_area > target_area then total_area - target_area else 0

/-- Enumerate the ordered index pairs `i < j` the pairwise cost loops of
layout_optimizer.cpp visit. -/
def indexPairs (n : ℕ) : List (ℕ × ℕ) :=
  (List.range n).flatMap (fun i => (List.range n).filterMap
    (fun j => if i < j then some (i, j) else none))

/-- `SimulatedAnnealingOptimizer::calculate_power_cost`
(layout_optimizer.cpp): clustered high-power pairs are penalized. -/
noncomputable def calculate_power_cost (comps : List Component) : ℝ :=
  (indexPairs comps.length).foldl
    (fun acc ij =>
      let comp1 := comps.getD ij.1 ⟨"", ⟨0, 0, 0, 0⟩, ⟨0, 0⟩, 0, false⟩
      let comp2 := comps.getD ij.2 ⟨"", ⟨0, 0, 0, 0⟩, ⟨0, 0⟩, 0, false⟩
      let dist := comp1.position.distance_to comp2.position
      let power_product := comp1.power_consumption * comp2.power_consumption
      if power_product > 1 / 1000 ∧ dist < 10 then
        acc + power_product / (dist + 1)
      else acc)
    0

/-- The shape rectangle of a component placed at its current position
(layout_optimizer.cpp builds `Rectangle(position.x, position.y,
shape.width, shape.height)`). -/
def placedRect (c : Component) : Rectangle ℝ :=
  ⟨c.position.x, c.position.y, c.shape.width, c.shape.height⟩

/-- `SimulatedAnnealingOptimizer::calculate_constraint_violations`
(layout_optimizer.cpp): pairwise spacing deficits plus 100 per component
outside the placement area.  The source spells the containment test
`placement_area.contains(comp_rect)`; `Rectangle` offers it as
`contains_rectangle` (see rectangle.hpp). -/
noncomputable def calculate_constraint_violations (comps : List Component)
    (placement_area : Rectangle ℝ) (min_spacing : ℝ) : ℝ :=
  let spacing := (indexPairs comps.length).foldl
    (fun acc ij =>
      let comp1 := comps.getD ij.1 ⟨"", ⟨0, 0, 0, 0⟩, ⟨0, 0⟩, 0, false⟩
      let comp2 := comps.getD ij.2 ⟨"", ⟨0, 0, 0, 0⟩, ⟨0, 0⟩, 0, false⟩
      let dist := (placedRect comp1).distance_to_rect (placedRect comp2)
      if dist < min_spacing then acc + (min_spacing - dist) else acc)
    0
  comps.foldl
    (fun acc c =>
      if placement_area.contains_rectangle (placedRect c) then acc
      else acc + 100)
    spacing

/-- `SimulatedAnnealingOptimizer::evaluate_cost` (layout_optimizer.cpp). -/
noncomputable def evaluateCost (s : SAState) : CostResult :=
  let wirelength := calculate_wirelength_cost s.components s.nets
  let timing := calculate_timing_cost s.components s.nets
  let area := calculate_area_cost s.components s.placement_area
  let power := calculate_power_cost s.components
  let violations := calculate_constraint_violations s.components
    s.placement_area s.config.min_spacing
  { total_cost := s.config.wirelength_weight * wirelength +
      s.config.timing_weight * timing + s.config.area_weight * area +
      s.config.power_weight * power + 1000 * violations
    area_cost := area
    wirelength_cost := wirelength
    timing_cost := timing
    power_cost := power
    constraint_violations := violations }

/-- `SimulatedAnnealingOptimizer::is_position_valid`
(layout_optimizer.cpp): the moved shape must stay inside the placement
area. -/
noncomputable def is_position_valid (s : SAState) (comp_idx : ℕ)
    (pos : Point ℝ) : Bool :=
  let comp := s.components.getD comp_idx ⟨"", ⟨0, 0, 0, 0⟩, ⟨0, 0⟩, 0, false⟩
  !(decide (pos.x < s.placement_area.x) ||
    decide (pos.y < s.placement_area.y) ||
    decide (pos.x + comp.shape.width >
      s.placement_area.x + s.placement_area.width) ||
    decide (pos.y + comp.shape.height >
      s.placement_area.y + s.placement_area.height))

/-- Overwrite the position of component `i`. -/
def setPosition (comps : List Component) (i : ℕ) (pos : Point ℝ) :
    List Component :=
  match comps.get? i with
  | none => comps
  | some c => comps.set i { c with position := pos }

/-- `SimulatedAnnealingOptimizer::make_random_move`
(layout_optimizer.cpp): pick a movable component uniformly, propose a
translation by two `Uniform(-T, T)` draws, and apply it only when the
shape stays inside the placement area. -/
noncomputable def make_random_move (s : SAState) : SAState × Bool :=
  if s.components.isEmpty then (s, false)
  else
    let movable := (List.range s.components.length).filter
      (fun i => !(s.components.getD i ⟨"", ⟨0, 0, 0, 0⟩, ⟨0, 0⟩, 0, false⟩).is_fixed)
    if movable.isEmpty then (s, false)
    else
      let selected_idx := movable.getD (s.rngN s.nN % movable.length) 0
      let old_pos := positionAt s.components selected_idx
      let dx := s.rngR s.nR
      let dy := s.rngR (s.nR + 1)
      let s := { s with nN := s.nN + 1, nR := s.nR + 2,
                        old_position := old_pos,
                        selected_component := selected_idx }
      let new_pos : Point ℝ := ⟨old_pos.x + dx, old_pos.y + dy⟩
      if s.is_position_valid selected_idx new_pos then
        ({ s with components := setPosition s.components selected_idx new_pos },
          true)
      else (s, false)

/-- `SimulatedAnnealingOptimizer::accept_probability`
(layout_optimizer.cpp): false at non-positive temperature, otherwise
compare a uniform draw against `exp(-delta / T)`.  The draw happens only
when this function is reached (the `||` in the caller short-circuits). -/
noncomputable def accept_probability (s : SAState) (delta_cost : ℝ) :
    SAState × Bool :=
  if s.current_temperature ≤ 0 then (s, false)
  else
    let u := s.rngR s.nR
    ({ s with nR := s.nR + 1 },
      decide (u < Real.exp (-delta_cost / s.current_temperature)))

/-- `SimulatedAnnealingOptimizer::reject_move` (layout_optimizer.cpp):
restore the remembered position. -/
def reject_move (s : SAState) : SAState :=
  if s.selected_component < s.components.length then
    { s with components :=
        setPosition s.components s.selected_component s.old_position }
  else s

/-- One iteration of the `optimize()` main loop (layout_optimizer.cpp,
lines 46–89): move, evaluate, accept or reject, update the incumbent,
cool. -/
noncomputable def saStep (s : SAState) : SAState :=
  let (s1, moved) := make_random_move s
  let s2 :=
    if moved then
      let new_cost := evaluateCost s1
      let s1 := { s1 with cost_log := s1.cost_log ++ [new_cost] }
      let delta_cost := new_cost.total_cost - s1.current_cost.total_cost
      let s1 := { s1 with total_moves := s1.total_moves + 1 }
      let (s1, accepted) :=
        if delta_cost < 0 then (s1, true) else accept_probability s1 delta_cost
      if accepted then
        let s1 := { s1 with current_cost := new_cost,
                            accepted_moves := s1.accepted_moves + 1 }
        if new_cost.total_cost < s1.best_cost.total_cost then
          { s1 with best_cost := new_cost,
                    best_positions := s1.components.map (fun c => c.position),
                    improved_moves := s1.improved_moves + 1 }
        else s1
      else reject_move s1
    else s1
  { s2 with current_temperature :=
      s2.current_temperature * s2.config.cooling_rate }

/-- The `for (iter = 0; iter < max_iterations; ++iter)` loop of
`optimize()` (layout_optimizer.cpp) with its end-of-body termination
check `current_temperature < final_temperature`. -/
noncomputable def saLoop : ℕ → SAState → SAState
  | 0, s => s
  | n + 1, s =>
    let s' := saStep s
    if s'.current_temperature < s'.config.final_temperature then s'
    else saLoop n s'

/-- `components[i].position = best_positions[i]` for all `i`
(layout_optimizer.cpp, the restore loop of `optimize()`). -/
def restorePositions (comps : List Component) (best : List (Point ℝ)) :
    List Component :=
  comps.zipWith (fun c p => { c with position := p }) best

/-- `SimulatedAnnealingOptimizer::optimize` (layout_optimizer.cpp):
snapshot the starting positions, evaluate the initial cost, run the
annealing loop, restore the best-seen positions and return the best-seen
cost.  `cost_log` is reset so it records exactly this run's evaluations. -/
noncomputable def optimize (s : SAState) : CostResult × SAState :=
  let best_positions := s.components.map (fun c => c.position)
  let c0 := evaluateCost s
  let s := { s with best_positions := best_positions,
                    current_cost := c0,
                    best_cost := c0,
                    current_temperature := s.config.initial_temperature,
                    cost_log := [c0] }
  let s := saLoop s.config.max_iterations s
  let s := { s with components := restorePositions s.components s.best_positions }
  (s.best_cost, s)

/-- `SimulatedAnnealingOptimizer::generate_random_position`
(layout_optimizer.cpp): two uniform draws inside the placement area. -/
noncomputable def generate_random_position (s : SAState) : Point ℝ × SAState :=
  (⟨s.rngR s.nR, s.rngR (s.nR + 1)⟩, { s with nR := s.nR + 2 })

/-- `SimulatedAnnealingOptimizer::add_component` (layout_optimizer.cpp):
append the component, randomizing its position when it sits exactly at
the origin. -/
noncomputable def add_component (s : SAState) (comp : Component) : SAState :=
  if comp.position.x = 0 ∧ comp.position.y = 0 then
    let (pos, s') := generate_random_position s
    { s' with components := s'.components ++ [{ comp with position := pos }] }
  else { s with components := s.components ++ [comp] }

/-- `SimulatedAnnealingOptimizer::SimulatedAnnealingOptimizer`
(layout_optimizer.hpp): fresh state over a placement area and a config.
The C++ constructor seeds the RNG with `std::random_device{}()`; the
streams standing for that engine are explicit parameters here because the
class offers no way to choose them. -/
def SimulatedAnnealingOptimizer.new (area : Rectangle ℝ)
    (config : OptimizationConfig) (rngN : ℕ → ℕ) (rngR : ℕ → ℝ) : SAState :=
  { components := []
    nets := []
    placement_area := area
    config := config
    rngN := rngN
    rngR := rngR
    nN := 0
    nR := 0
    current_temperature := 0
    current_cost := ⟨0, 0, 0, 0, 0, 0⟩
    best_cost := ⟨0, 0, 0, 0, 0, 0⟩
    best_positions := []
    selected_component := 0
    old_position := ⟨0, 0⟩
    total_moves := 0
    accepted_moves := 0
    improved_moves := 0
    cost_log := [] }

end SAState

end ZLayout

/-! ## Theorems -/

namespace ZLayout

/-- C10: `Rectangle::union_with` returns the other operand unchanged
whenever an operand is empty (width or height below the `1e-10`
tolerance), so a degenerate rectangle's position never influences a
union; consequently `Rectangle::bounding_box` over a list of rectangles
need not enclose zero-width or zero-height members — here the bounding
box of `[(0,0,5,5), (100,100,0,3)]` is `(0,0,5,5)`, which does not
contain the degenerate member at `(100,100)`. -/
theorem union_with_ignores_degenerate_operands :
    (∀ r s : Rectangle ℚ, r.is_empty = true → r.union_with s = s) ∧
    (∀ r s : Rectangle ℚ, r.is_empty = false → s.is_empty = true →
      r.union_with s = r) ∧
    Rectangle.bounding_box [(⟨0, 0, 5, 5⟩ : Rectangle ℚ), ⟨100, 100, 0, 3⟩] =
      ⟨0, 0, 5, 5⟩ ∧
    Rectangle.contains_rectangle (⟨0, 0, 5, 5⟩ : Rectangle ℚ)
      ⟨100, 100, 0, 3⟩ = false := by
  refine ⟨?_, ?_, ?_, ?_⟩
  · intro r s h
    simp [Rectangle.union_with, h]
  · intro r s hr hs
    simp [Rectangle.union_with, hr, hs]
  · norm_num [Rectangle.bounding_box, Rectangle.union_with,
      Rectangle.is_empty, TOLERANCE]
  · norm_num [Rectangle.contains_rectangle]

/-- Witness for C10: a concrete degenerate rectangle is dropped by
`union_with` regardless of its position. -/
theorem union_with_ignores_degenerate_operands_witness :
    Rectangle.is_empty (⟨7, 9, 0, 3⟩ : Rectangle ℚ) = true ∧
    Rectangle.union_with (⟨7, 9, 0, 3⟩ : Rectangle ℚ) ⟨1, 1, 2, 2⟩ =
      ⟨1, 1, 2, 2⟩ :=
  ⟨by norm_num [Rectangle.is_empty, TOLERANCE],
    union_with_ignores_degenerate_operands.1 ⟨7, 9, 0, 3⟩ ⟨1, 1, 2, 2⟩
      (by norm_num [Rectangle.is_empty, TOLERANCE])⟩

/-- Points within half a grid cell of a common rounding target stay within
one unit: equal `std::round` results force the arguments within distance
one. -/
theorem roundHalfAwayFromZero_eq_imp (a b : ℚ)
    (h : Point.roundHalfAwayFromZero a = Point.roundHalfAwayFromZero b) :
    |a - b| < 1 := by
  unfold Point.roundHalfAwayFromZero at h
  rw [abs_lt]
  by_cases ha : 0 ≤ a <;> by_cases hb : 0 ≤ b
  · rw [if_pos ha, if_pos hb] at h
    have h1 := Int.floor_le (a + 1 / 2)
    have h2 := Int.lt_floor_add_one (a + 1 / 2)
    have h3 := Int.floor_le (b + 1 / 2)
    have h4 := Int.lt_floor_add_one (b + 1 / 2)
    rw [h] at h1 h2
    constructor <;> push_cast at h1 h2 h3 h4 <;> linarith
  · rw [if_pos ha, if_neg hb] at h
    push_neg at hb
    have hk1 : (0 : ℤ) ≤ ⌊a + 1 / 2⌋ := Int.floor_nonneg.mpr (by linarith)
    have hk2 : ⌈b - 1 / 2⌉ ≤ 0 := Int.ceil_le.mpr (by push_cast; linarith)
    rw [h] at hk1
    have hk : ⌈b - 1 / 2⌉ = 0 := le_antisymm hk2 hk1
    rw [hk] at h
    have h1 := Int.lt_floor_add_one (a + 1 / 2)
    have h2 := Int.ceil_lt_add_one (b - 1 / 2)
    rw [h] at h1
    rw [hk] at h2
    constructor <;> push_cast at h1 h2 <;> linarith
  · rw [if_neg ha, if_pos hb] at h
    push_neg at ha
    have hk1 : (0 : ℤ) ≤ ⌊b + 1 / 2⌋ := Int.floor_nonneg.mpr (by linarith)
    have hk2 : ⌈a - 1 / 2⌉ ≤ 0 := Int.ceil_le.mpr (by push_cast; linarith)
    rw [← h] at hk1
    have hk : ⌈a - 1 / 2⌉ = 0 := le_antisymm hk2 hk1
    rw [hk] at h
    have h1 := Int.lt_floor_add_one (b + 1 / 2)
    have h2 := Int.ceil_lt_add_one (a - 1 / 2)
    rw [← h] at h1
    rw [hk] at h2
    constructor <;> push_cast at h1 h2 <;> linarith
  · rw [if_neg ha, if_neg hb] at h
    have h1 := Int.le_ceil (a - 1 / 2)
    have h2 := Int.ceil_lt_add_one (a - 1 / 2)
    have h3 := Int.le_ceil (b - 1 / 2)
    have h4 := Int.ceil_lt_add_one (b - 1 / 2)
    rw [h] at h1 h2
    constructor <;> push_cast at h1 h2 h3 h4 <;> linarith

/-- C8 (amended): the hash collides on points whose coordinates snap to
the same `1e-10` grid value, and such points are also `==` within the
tolerance; but `==` alone does not force equal snapped values (see the
counterexample), so the guarantee holds cell-wise, not for every
`==`-pair. -/
theorem point_hash_same_cell_collides (hasher : ℚ → ℕ) (p q : ZLayout.Point ℚ)
    (h : Point.hashInput p = Point.hashInput q) :
    Point.pointHash hasher p = Point.pointHash hasher q ∧
      Point.beq p q = true := by
  have hx : Point.hashGridValue p.x = Point.hashGridValue q.x :=
    congrArg Prod.fst h
  have hy : Point.hashGridValue p.y = Point.hashGridValue q.y :=
    congrArg Prod.snd h
  have htol : (0 : ℚ) < TOLERANCE := by norm_num [TOLERANCE]
  have round_eq : ∀ u v : ℚ, Point.hashGridValue u = Point.hashGridValue v →
      Point.roundHalfAwayFromZero (u / TOLERANCE) =
        Point.roundHalfAwayFromZero (v / TOLERANCE) := by
    intro u v huv
    have := mul_right_cancel₀ (ne_of_gt htol) huv
    exact_mod_cast this
  have close : ∀ u v : ℚ, Point.hashGridValue u = Point.hashGridValue v →
      |u - v| < TOLERANCE := by
    intro u v huv
    have h1 := roundHalfAwayFromZero_eq_imp _ _ (round_eq u v huv)
    have : |u / TOLERANCE - v / TOLERANCE| < 1 := h1
    rw [div_sub_div_same, abs_div, abs_of_pos htol, div_lt_one htol] at this
    linarith
  refine ⟨?_, ?_⟩
  · unfold Point.pointHash
    rw [hx, hy]
  · unfold Point.beq
    rw [Bool.and_eq_true, decide_eq_true_eq, decide_eq_true_eq]
    exact ⟨close _ _ hx, close _ _ hy⟩

/-- Witness for C8: two points in the same grid cell get equal hashes and
are `==`. -/
theorem point_hash_same_cell_collides_witness :
    Point.hashInput (⟨1 / 10 ^ 11, 0⟩ : ZLayout.Point ℚ) =
      Point.hashInput ⟨2 / 10 ^ 11, 0⟩ ∧
    Point.pointHash (fun q => q.num.natAbs) ⟨1 / 10 ^ 11, 0⟩ =
      Point.pointHash (fun q => q.num.natAbs) ⟨2 / 10 ^ 11, 0⟩ :=
  ⟨by norm_num [Point.hashInput, Point.hashGridValue,
      Point.roundHalfAwayFromZero, TOLERANCE, Int.floor_eq_iff],
    (point_hash_same_cell_collides (fun q => q.num.natAbs)
      ⟨1 / 10 ^ 11, 0⟩ ⟨2 / 10 ^ 11, 0⟩
      (by norm_num [Point.hashInput, Point.hashGridValue,
        Point.roundHalfAwayFromZero, TOLERANCE, Int.floor_eq_iff])).1⟩

/-- C8 (counterexample): the points `(0.4e-10, 0)` and `(0.6e-10, 0)` are
`==` within the tolerance, yet they snap to different grid values —
`0.0` versus `1e-10` — so `std::hash<double>` receives different inputs
and (being injective on distinct finite doubles in the mainstream
implementations) produces different hashes. -/
theorem point_hash_eq_within_eps_can_differ :
    Point.beq (⟨4 / 10 ^ 11, 0⟩ : ZLayout.Point ℚ) ⟨6 / 10 ^ 11, 0⟩ = true ∧
    Point.hashInput (⟨4 / 10 ^ 11, 0⟩ : ZLayout.Point ℚ) ≠
      Point.hashInput ⟨6 / 10 ^ 11, 0⟩ := by
  constructor
  · norm_num [Point.beq, TOLERANCE, abs_lt]
  · norm_num [Point.hashInput, Point.hashGridValue,
      Point.roundHalfAwayFromZero, TOLERANCE, Int.floor_eq_iff, Prod.ext_iff]

mutual

/-- `attachChild` reports success exactly when the pre-order search finds
the target, on a single block. -/
theorem attachChild_snd (b : IPBlock) (target : String) (child : IPBlock) :
    (b.attachChild target child).2 = (b.search target).isSome := by
  cases b with
  | mk n bd l subs =>
    by_cases h : n = target
    · simp [IPBlock.attachChild, IPBlock.search, h]
    · simp [IPBlock.attachChild, IPBlock.search, h,
        attachChildList_snd subs target child]

/-- `attachChild` reports success exactly when the pre-order search finds
the target, on a list of blocks. -/
theorem attachChildList_snd (bs : List IPBlock) (target : String)
    (child : IPBlock) :
    (IPBlock.attachChildList bs target child).2 =
      (IPBlock.searchList bs target).isSome := by
  cases bs with
  | nil => simp [IPBlock.attachChildList, IPBlock.searchList]
  | cons b rest =>
    have hb := attachChild_snd b target child
    cases hs : b.search target with
    | some f => simp [IPBlock.attachChildList, IPBlock.searchList, hs, hb]
    | none =>
      simp [IPBlock.attachChildList, IPBlock.searchList, hs, hb,
        attachChildList_snd rest target child]

end

/-- `countNameList` distributes over list append. -/
theorem countNameList_append (xs ys : List IPBlock) (nm : String) :
    IPBlock.countNameList (xs ++ ys) nm =
      IPBlock.countNameList xs nm + IPBlock.countNameList ys nm := by
  induction xs with
  | nil => simp [IPBlock.countNameList]
  | cons x rest ih => simp [IPBlock.countNameList, ih, Nat.add_assoc]

mutual

/-- A successful `attachChild` adds exactly the child's name counts to
the tree, on a single block. -/
theorem attachChild_countName (b : IPBlock) (target : String)
    (child : IPBlock) (nm : String)
    (h : (b.attachChild target child).2 = true) :
    ((b.attachChild target child).1).countName nm =
      b.countName nm + child.countName nm := by
  cases b with
  | mk n bd l subs =>
    by_cases ht : n = target
    · simp [IPBlock.attachChild, ht, IPBlock.countName, countNameList_append,
        IPBlock.countNameList, Nat.add_assoc]
    · simp only [IPBlock.attachChild, if_neg ht] at h ⊢
      rw [IPBlock.countName, IPBlock.countName,
        attachChildList_countName subs target child nm h, Nat.add_assoc]

/-- A successful `attachChild` adds exactly the child's name counts to
the tree, on a list of blocks. -/
theorem attachChildList_countName (bs : List IPBlock) (target : String)
    (child : IPBlock) (nm : String)
    (h : (IPBlock.attachChildList bs target child).2 = true) :
    IPBlock.countNameList ((IPBlock.attachChildList bs target child).1) nm =
      IPBlock.countNameList bs nm + child.countName nm := by
  cases bs with
  | nil => simp [IPBlock.attachChildList] at h
  | cons b rest =>
    cases hb : (b.attachChild target child).2 with
    | true =>
      simp only [IPBlock.attachChildList, hb, if_pos]
      rw [IPBlock.countNameList, IPBlock.countNameList,
        attachChild_countName b target child nm hb]
      omega
    | false =>
      simp only [IPBlock.attachChildList, hb, Bool.false_eq_true, if_false] at h ⊢
      rw [IPBlock.countNameList, IPBlock.countNameList,
        attachChildList_countName rest target child nm h]
      omega

end

/-- C1 (counterexample): with world `(0,0,100,100)`, capacity 1 and
max-depth 8, insert `(1,1,2,2)` and then the straddler `(40,60,20,2)`
(which spans the NW and NE quadrants); both inserts succeed.  The query
range `(55,59,3,4)` intersects the straddler's bounding box, yet
`query_range` returns nothing: the straddler was routed into the NW
child (the first child that intersects it), and the NW subtree is pruned
because the range misses its boundary. -/
theorem quadtree_query_range_misses_inserted_straddler :
    ((QuadTree.new ⟨0, 0, 100, 100⟩ 1 8).insert ⟨1, 1, 2, 2⟩).2 = true ∧
    ((((QuadTree.new ⟨0, 0, 100, 100⟩ 1 8).insert ⟨1, 1, 2, 2⟩).1).insert
      ⟨40, 60, 20, 2⟩).2 = true ∧
    Rectangle.intersects (⟨40, 60, 20, 2⟩ : Rectangle ℚ) ⟨55, 59, 3, 4⟩ = true ∧
    ¬ ((⟨40, 60, 20, 2⟩ : Rectangle ℚ) ∈
      ((((QuadTree.new ⟨0, 0, 100, 100⟩ 1 8).insert ⟨1, 1, 2, 2⟩).1).insert
        ⟨40, 60, 20, 2⟩).1.query_range ⟨55, 59, 3, 4⟩) := by
  have h1 : (QuadTree.new ⟨0, 0, 100, 100⟩ 1 8).insert ⟨1, 1, 2, 2⟩ =
      (⟨QuadTreeNode.leaf ⟨0, 0, 100, 100⟩ [⟨1, 1, 2, 2⟩] 0, 1, 8⟩, true) := by
    norm_num [QuadTree.new, QuadTree.insert, QuadTreeNode.insertAux,
      Rectangle.intersects]
  have h2 : QuadTreeNode.insertAux 1 8 8
      (QuadTreeNode.leaf ⟨0, 50, 50, 50⟩ [] 1) ⟨40, 60, 20, 2⟩ =
      (QuadTreeNode.leaf ⟨0, 50, 50, 50⟩ [⟨40, 60, 20, 2⟩] 1, true) := by
    norm_num [QuadTreeNode.insertAux, Rectangle.intersects]
  have h3 : QuadTreeNode.insertAux 1 8 9
      (QuadTreeNode.leaf ⟨0, 0, 100, 100⟩ [⟨1, 1, 2, 2⟩] 0) ⟨40, 60, 20, 2⟩ =
      QuadTreeNode.insertIntoChildren 1 8 8 ⟨0, 0, 100, 100⟩ [⟨1, 1, 2, 2⟩] 0
        (QuadTreeNode.leaf ⟨0, 50, 50, 50⟩ [] 1)
        (QuadTreeNode.leaf ⟨50, 50, 50, 50⟩ [] 1)
        (QuadTreeNode.leaf ⟨0, 0, 50, 50⟩ [] 1)
        (QuadTreeNode.leaf ⟨50, 0, 50, 50⟩ [] 1) ⟨40, 60, 20, 2⟩ := by
    norm_num [QuadTreeNode.insertAux, Rectangle.intersects,
      QuadTreeNode.subdivideChild]
  have h4 : QuadTreeNode.insertIntoChildren 1 8 8 ⟨0, 0, 100, 100⟩
      [⟨1, 1, 2, 2⟩] 0
      (QuadTreeNode.leaf ⟨0, 50, 50, 50⟩ [] 1)
      (QuadTreeNode.leaf ⟨50, 50, 50, 50⟩ [] 1)
      (QuadTreeNode.leaf ⟨0, 0, 50, 50⟩ [] 1)
      (QuadTreeNode.leaf ⟨50, 0, 50, 50⟩ [] 1) ⟨40, 60, 20, 2⟩ =
      (QuadTreeNode.node ⟨0, 0, 100, 100⟩ [⟨1, 1, 2, 2⟩] 0
        (QuadTreeNode.leaf ⟨0, 50, 50, 50⟩ [⟨40, 60, 20, 2⟩] 1)
        (QuadTreeNode.leaf ⟨50, 50, 50, 50⟩ [] 1)
        (QuadTreeNode.leaf ⟨0, 0, 50, 50⟩ [] 1)
        (QuadTreeNode.leaf ⟨50, 0, 50, 50⟩ [] 1), true) := by
    simp only [QuadTreeNode.insertIntoChildren, h2]
    simp
  have h5 : (((QuadTree.new ⟨0, 0, 100, 100⟩ 1 8).insert ⟨1, 1, 2, 2⟩).1).insert
      ⟨40, 60, 20, 2⟩ =
      (⟨QuadTreeNode.node ⟨0, 0, 100, 100⟩ [⟨1, 1, 2, 2⟩] 0
        (QuadTreeNode.leaf ⟨0, 50, 50, 50⟩ [⟨40, 60, 20, 2⟩] 1)
        (QuadTreeNode.leaf ⟨50, 50, 50, 50⟩ [] 1)
        (QuadTreeNode.leaf ⟨0, 0, 50, 50⟩ [] 1)
        (QuadTreeNode.leaf ⟨50, 0, 50, 50⟩ [] 1), 1, 8⟩, true) := by
    rw [h1]
    simp only [QuadTree.insert]
    norm_num [h3, h4]
  have h6 : QuadTreeNode.query_range
      (QuadTreeNode.node ⟨0, 0, 100, 100⟩ [⟨1, 1, 2, 2⟩] 0
        (QuadTreeNode.leaf ⟨0, 50, 50, 50⟩ [⟨40, 60, 20, 2⟩] 1)
        (QuadTreeNode.leaf ⟨50, 50, 50, 50⟩ [] 1)
        (QuadTreeNode.leaf ⟨0, 0, 50, 50⟩ [] 1)
        (QuadTreeNode.leaf ⟨50, 0, 50, 50⟩ [] 1)) ⟨55, 59, 3, 4⟩ = [] := by
    norm_num [QuadTreeNode.query_range, Rectangle.intersects]
  refine ⟨by rw [h1], by rw [h5], by norm_num [Rectangle.intersects], ?_⟩
  rw [h5]
  simp only [QuadTree.query_range, h6]
  simp

/-- Every object reported by `query_range` is stored in the subtree and
its bounding box intersects the query range. -/
theorem query_range_subset (t : QuadTreeNode) (range o : Rectangle ℚ)
    (h : o ∈ t.query_range range) :
    o ∈ t.get_all_objects ∧ o.intersects range = true := by
  induction t with
  | leaf b objs d =>
    rw [QuadTreeNode.query_range] at h
    split at h
    · cases h
    · obtain ⟨hm, hp⟩ := List.mem_filter.mp h
      exact ⟨hm, hp⟩
  | node b objs d c0 c1 c2 c3 ih0 ih1 ih2 ih3 =>
    rw [QuadTreeNode.query_range] at h
    split at h
    · cases h
    · simp only [List.mem_append] at h
      simp only [QuadTreeNode.get_all_objects, List.mem_append]
      rcases h with ((((h | h) | h) | h) | h)
      · obtain ⟨hm, hp⟩ := List.mem_filter.mp h
        exact ⟨by tauto, hp⟩
      · obtain ⟨hm, hp⟩ := ih0 h
        exact ⟨by tauto, hp⟩
      · obtain ⟨hm, hp⟩ := ih1 h
        exact ⟨by tauto, hp⟩
      · obtain ⟨hm, hp⟩ := ih2 h
        exact ⟨by tauto, hp⟩
      · obtain ⟨hm, hp⟩ := ih3 h
        exact ⟨by tauto, hp⟩

/-- An insertion can add only the inserted object: everything stored
afterwards was stored before or is the new object.  Stated for `insertAux`
and its child-dispatch loop simultaneously, by strong induction on the
fuel. -/
theorem insertAux_objects_subset (capacity max_depth : ℕ) (fuel : ℕ) :
    (∀ t o x, x ∈ ((QuadTreeNode.insertAux capacity max_depth fuel t o).1).get_all_objects →
      x = o ∨ x ∈ t.get_all_objects) ∧
    (∀ b objs d c0 c1 c2 c3 o x,
      x ∈ ((QuadTreeNode.insertIntoChildren capacity max_depth fuel b objs d
        c0 c1 c2 c3 o).1).get_all_objects →
      x = o ∨ x ∈ (QuadTreeNode.node b objs d c0 c1 c2 c3).get_all_objects) := by
  induction fuel using Nat.strong_induction_on with
  | _ fuel IH =>
    have hpart1 : ∀ t o x,
        x ∈ ((QuadTreeNode.insertAux capacity max_depth fuel t o).1).get_all_objects →
        x = o ∨ x ∈ t.get_all_objects := by
      intro t o x hx
      cases t with
      | leaf b objs d =>
        rw [QuadTreeNode.insertAux] at hx
        split_ifs at hx with hi hcap hd hf
        · exact Or.inr hx
        · simp only [QuadTreeNode.get_all_objects, List.mem_append,
            List.mem_singleton] at hx
          simp only [QuadTreeNode.get_all_objects]
          tauto
        · simp only [QuadTreeNode.get_all_objects, QuadTreeNode.subdivideChild,
            List.mem_append, List.mem_singleton, List.not_mem_nil,
            or_false] at hx
          simp only [QuadTreeNode.get_all_objects]
          tauto
        · have := (IH (fuel - 1) (by omega)).2 b objs d
            (QuadTreeNode.subdivideChild b d 0) (QuadTreeNode.subdivideChild b d 1)
            (QuadTreeNode.subdivideChild b d 2) (QuadTreeNode.subdivideChild b d 3)
            o x hx
          simp only [QuadTreeNode.get_all_objects, QuadTreeNode.subdivideChild,
            List.mem_append, List.not_mem_nil, or_false] at this
          simp only [QuadTreeNode.get_all_objects]
          tauto
        · simp only [QuadTreeNode.get_all_objects, List.mem_append,
            List.mem_singleton] at hx
          simp only [QuadTreeNode.get_all_objects]
          tauto
      | node b objs d c0 c1 c2 c3 =>
        rw [QuadTreeNode.insertAux] at hx
        split_ifs at hx with hi hf
        · exact Or.inr hx
        · simp only [QuadTreeNode.get_all_objects, List.mem_append,
            List.mem_singleton] at hx
          simp only [QuadTreeNode.get_all_objects, List.mem_append]
          tauto
        · exact (IH (fuel - 1) (by omega)).2 b objs d c0 c1 c2 c3 o x hx
    have hpart2 : ∀ b objs d c0 c1 c2 c3 o x,
        x ∈ ((QuadTreeNode.insertIntoChildren capacity max_depth fuel b objs d
          c0 c1 c2 c3 o).1).get_all_objects →
        x = o ∨ x ∈ (QuadTreeNode.node b objs d c0 c1 c2 c3).get_all_objects := by
      intro b objs d c0 c1 c2 c3 o x hx
      rw [QuadTreeNode.insertIntoChildren] at hx
      simp only [QuadTreeNode.get_all_objects, List.mem_append]
      by_cases h0 : (QuadTreeNode.insertAux capacity max_depth fuel c0 o).2 = true
      · rw [if_pos h0] at hx
        simp only [QuadTreeNode.get_all_objects, List.mem_append] at hx
        rcases hx with ((((hx | hx) | hx) | hx) | hx)
        · tauto
        · rcases hpart1 c0 o x hx with h | h <;> tauto
        all_goals tauto
      · rw [if_neg h0] at hx
        by_cases h1 : (QuadTreeNode.insertAux capacity max_depth fuel c1 o).2 = true
        · rw [if_pos h1] at hx
          simp only [QuadTreeNode.get_all_objects, List.mem_append] at hx
          rcases hx with ((((hx | hx) | hx) | hx) | hx)
          · tauto
          · tauto
          · rcases hpart1 c1 o x hx with h | h <;> tauto
          all_goals tauto
        · rw [if_neg h1] at hx
          by_cases h2 : (QuadTreeNode.insertAux capacity max_depth fuel c2 o).2 = true
          · rw [if_pos h2] at hx
            simp only [QuadTreeNode.get_all_objects, List.mem_append] at hx
            rcases hx with ((((hx | hx) | hx) | hx) | hx)
            · tauto
            · tauto
            · tauto
            · rcases hpart1 c2 o x hx with h | h <;> tauto
            · tauto
          · rw [if_neg h2] at hx
            by_cases h3 : (QuadTreeNode.insertAux capacity max_depth fuel c3 o).2 = true
            · rw [if_pos h3] at hx
              simp only [QuadTreeNode.get_all_objects, List.mem_append] at hx
              rcases hx with ((((hx | hx) | hx) | hx) | hx)
              · tauto
              · tauto
              · tauto
              · tauto
              · rcases hpart1 c3 o x hx with h | h <;> tauto
            · rw [if_neg h3] at hx
              simp only [QuadTreeNode.get_all_objects, List.mem_append,
                List.mem_singleton] at hx
              tauto
    exact ⟨hpart1, hpart2⟩

/-- Everything stored after an `insertAll` run was either stored before or
occurs in the inserted sequence. -/
theorem insertAll_objects_subset (S : List (Rectangle ℚ)) :
    ∀ (t : QuadTree) (x : Rectangle ℚ),
      x ∈ (t.insertAll S).root.get_all_objects →
      x ∈ t.root.get_all_objects ∨ x ∈ S := by
  induction S with
  | nil =>
    intro t x hx
    exact Or.inl hx
  | cons o rest ih =>
    intro t x hx
    rcases ih (t.insert o).1 x hx with h | h
    · rcases (insertAux_objects_subset t.capacity t.max_depth
          (t.max_depth + 1)).1 t.root o x h with h' | h'
      · exact Or.inr (by simp [h'])
      · exact Or.inl h'
    · exact Or.inr (List.mem_cons_of_mem _ h)

/-- C1 (amended): `query_range` is sound but not complete.  Every object
it returns was inserted and its bounding box intersects the range (no
false positives); but an inserted object whose bounding box intersects
the range can be missed, because an object spanning several quadrants is
stored inside the first child whose rectangle it intersects, and the
query prunes that child's subtree whenever the range misses that child's
rectangle (see the counterexample). -/
theorem quadtree_query_range_sound (boundary : Rectangle ℚ)
    (capacity max_depth : ℕ) (S : List (Rectangle ℚ)) (R o : Rectangle ℚ)
    (h : o ∈ ((QuadTree.new boundary capacity max_depth).insertAll S).query_range R) :
    o ∈ S ∧ o.intersects R = true := by
  obtain ⟨hm, hi⟩ := query_range_subset _ _ _ h
  rcases insertAll_objects_subset S (QuadTree.new boundary capacity max_depth)
      o hm with h' | h'
  · simp [QuadTree.new, QuadTreeNode.get_all_objects] at h'
  · exact ⟨h', hi⟩

/-- Witness for C1 (amended): querying the whole world after inserting one
rectangle returns that rectangle, which the soundness theorem then places
in the inserted sequence with an intersecting bounding box. -/
theorem quadtree_query_range_sound_witness :
    ((⟨1, 1, 2, 2⟩ : Rectangle ℚ) ∈
      ((QuadTree.new ⟨0, 0, 100, 100⟩ 1 8).insertAll
        [⟨1, 1, 2, 2⟩]).query_range ⟨0, 0, 100, 100⟩) ∧
    ((⟨1, 1, 2, 2⟩ : Rectangle ℚ) ∈ [(⟨1, 1, 2, 2⟩ : Rectangle ℚ)] ∧
      Rectangle.intersects (⟨1, 1, 2, 2⟩ : Rectangle ℚ) ⟨0, 0, 100, 100⟩ = true) := by
  have hq : ((QuadTree.new ⟨0, 0, 100, 100⟩ 1 8).insertAll
      [⟨1, 1, 2, 2⟩]).query_range ⟨0, 0, 100, 100⟩ = [⟨1, 1, 2, 2⟩] := by
    norm_num [QuadTree.new, QuadTree.insertAll, QuadTree.insert,
      QuadTreeNode.insertAux, QuadTree.query_range, QuadTreeNode.query_range,
      Rectangle.intersects]
  have hm : (⟨1, 1, 2, 2⟩ : Rectangle ℚ) ∈
      ((QuadTree.new ⟨0, 0, 100, 100⟩ 1 8).insertAll
        [⟨1, 1, 2, 2⟩]).query_range ⟨0, 0, 100, 100⟩ := by
    rw [hq]; exact List.mem_singleton.mpr rfl
  exact ⟨hm, quadtree_query_range_sound ⟨0, 0, 100, 100⟩ 1 8 [⟨1, 1, 2, 2⟩]
    ⟨0, 0, 100, 100⟩ ⟨1, 1, 2, 2⟩ hm⟩

namespace ZOrderCurve

theorem testBit_ge {x n : ℕ} (hx : x < 2 ^ n) {m : ℕ} (h : n ≤ m) :
    x.testBit m = false :=
  Nat.testBit_lt_two_pow (lt_of_lt_of_le hx (Nat.pow_le_pow_right (by norm_num) h))

theorem testBit_mask16 (n : ℕ) :
    (0x0000FFFF0000FFFF : ℕ).testBit n =
      (decide (n < 64) && decide (n % 32 < 16)) := by
  rcases Nat.lt_or_ge n 64 with hn | hn
  · interval_cases n <;> decide
  · rw [testBit_ge (by norm_num) hn]
    have : ¬ n < 64 := by omega
    simp [this]

theorem testBit_mask8 (n : ℕ) :
    (0x00FF00FF00FF00FF : ℕ).testBit n =
      (decide (n < 64) && decide (n % 16 < 8)) := by
  rcases Nat.lt_or_ge n 64 with hn | hn
  · interval_cases n <;> decide
  · rw [testBit_ge (by norm_num) hn]
    have : ¬ n < 64 := by omega
    simp [this]

theorem testBit_mask4 (n : ℕ) :
    (0x0F0F0F0F0F0F0F0F : ℕ).testBit n =
      (decide (n < 64) && decide (n % 8 < 4)) := by
  rcases Nat.lt_or_ge n 64 with hn | hn
  · interval_cases n <;> decide
  · rw [testBit_ge (by norm_num) hn]
    have : ¬ n < 64 := by omega
    simp [this]

theorem testBit_mask2 (n : ℕ) :
    (0x3333333333333333 : ℕ).testBit n =
      (decide (n < 64) && decide (n % 4 < 2)) := by
  rcases Nat.lt_or_ge n 64 with hn | hn
  · interval_cases n <;> decide
  · rw [testBit_ge (by norm_num) hn]
    have : ¬ n < 64 := by omega
    simp [this]

theorem testBit_mask1 (n : ℕ) :
    (0x5555555555555555 : ℕ).testBit n =
      (decide (n < 64) && decide (n % 2 < 1)) := by
  rcases Nat.lt_or_ge n 64 with hn | hn
  · interval_cases n <;> decide
  · rw [testBit_ge (by norm_num) hn]
    have : ¬ n < 64 := by omega
    simp [this]

theorem testBit_mask32 (n : ℕ) :
    (0x00000000FFFFFFFF : ℕ).testBit n = decide (n < 32) := by
  rcases Nat.lt_or_ge n 64 with hn | hn
  · interval_cases n <;> decide
  · rw [testBit_ge (by norm_num) (by omega : 32 ≤ n)]
    have : ¬ n < 32 := by omega
    simp [this]

theorem ispread16_testBit (x : ℕ) (hx : x < 2 ^ 32) (n : ℕ) :
    (ispread16 x).testBit n =
      (decide (n % 32 < 16) && x.testBit (n % 32 + 16 * (n / 32))) := by
  unfold ispread16
  rw [Nat.testBit_land, Nat.testBit_lor, Nat.testBit_shiftLeft, testBit_mask16]
  rcases Nat.lt_or_ge n 64 with hn | hn
  · by_cases hc : n % 32 < 16
    · rcases Nat.lt_or_ge n 32 with h32 | h32
      · have e : n % 32 + 16 * (n / 32) = n := by omega
        have hns : ¬ 16 ≤ n := by omega
        simp [hn, hc, e, hns]
      · have e : n % 32 + 16 * (n / 32) = n - 16 := by omega
        have dx : x.testBit n = false := testBit_ge hx (by omega)
        have h16 : 16 ≤ n := by omega
        simp [hn, hc, e, dx, h16]
    · simp [hc]
  · have dm : ¬ n < 64 := by omega
    have dr : x.testBit (n % 32 + 16 * (n / 32)) = false := testBit_ge hx (by omega)
    simp [dm, dr]

theorem ispread8_testBit (r x : ℕ) (hx : x < 2 ^ 32)
    (hr : ∀ m, r.testBit m =
      (decide (m % 32 < 16) && x.testBit (m % 32 + 16 * (m / 32)))) (n : ℕ) :
    (ispread8 r).testBit n =
      (decide (n % 16 < 8) && x.testBit (n % 16 + 8 * (n / 16))) := by
  unfold ispread8
  rw [Nat.testBit_land, Nat.testBit_lor, Nat.testBit_shiftLeft, testBit_mask8,
    hr n, hr (n - 8)]
  rcases Nat.lt_or_ge n 64 with hn | hn
  · by_cases hc : n % 16 < 8
    · by_cases hA : n % 32 < 16
      · -- low half of the 32-block: the unshifted source fires
        have e : n % 32 + 16 * (n / 32) = n % 16 + 8 * (n / 16) := by omega
        rcases Nat.lt_or_ge n 8 with h8 | h8
        · have d1 : ¬ 8 ≤ n := by omega
          simp [hn, hc, hA, e, d1]
        · have d2 : ¬ ((n - 8) % 32 < 16) := by omega
          simp [hn, hc, hA, e, d2]
      · -- upper half: the shifted source fires
        have h8 : 8 ≤ n := by omega
        have dB : (n - 8) % 32 < 16 := by omega
        have e : (n - 8) % 32 + 16 * ((n - 8) / 32) = n % 16 + 8 * (n / 16) := by
          omega
        simp [hn, hc, hA, h8, dB, e]
    · simp [hc]
  · have dm : ¬ n < 64 := by omega
    have dr : x.testBit (n % 16 + 8 * (n / 16)) = false := testBit_ge hx (by omega)
    simp [dm, dr]

theorem ispread4_testBit (r x : ℕ) (hx : x < 2 ^ 32)
    (hr : ∀ m, r.testBit m =
      (decide (m % 16 < 8) && x.testBit (m % 16 + 8 * (m / 16)))) (n : ℕ) :
    (ispread4 r).testBit n =
      (decide (n % 8 < 4) && x.testBit (n % 8 + 4 * (n / 8))) := by
  unfold ispread4
  rw [Nat.testBit_land, Nat.testBit_lor, Nat.testBit_shiftLeft, testBit_mask4,
    hr n, hr (n - 4)]
  rcases Nat.lt_or_ge n 64 with hn | hn
  · by_cases hc : n % 8 < 4
    · by_cases hA : n % 16 < 8
      · have e : n % 16 + 8 * (n / 16) = n % 8 + 4 * (n / 8) := by omega
        rcases Nat.lt_or_ge n 4 with h4 | h4
        · have d1 : ¬ 4 ≤ n := by omega
          simp [hn, hc, hA, e, d1]
        · have d2 : ¬ ((n - 4) % 16 < 8) := by omega
          simp [hn, hc, hA, e, d2]
      · have h4 : 4 ≤ n := by omega
        have dB : (n - 4) % 16 < 8 := by omega
        have e : (n - 4) % 16 + 8 * ((n - 4) / 16) = n % 8 + 4 * (n / 8) := by
          omega
        simp [hn, hc, hA, h4, dB, e]
    · simp [hc]
  · have dm : ¬ n < 64 := by omega
    have dr : x.testBit (n % 8 + 4 * (n / 8)) = false := testBit_ge hx (by omega)
    simp [dm, dr]

theorem ispread2_testBit (r x : ℕ) (hx : x < 2 ^ 32)
    (hr : ∀ m, r.testBit m =
      (decide (m % 8 < 4) && x.testBit (m % 8 + 4 * (m / 8)))) (n : ℕ) :
    (ispread2 r).testBit n =
      (decide (n % 4 < 2) && x.testBit (n % 4 + 2 * (n / 4))) := by
  unfold ispread2
  rw [Nat.testBit_land, Nat.testBit_lor, Nat.testBit_shiftLeft, testBit_mask2,
    hr n, hr (n - 2)]
  rcases Nat.lt_or_ge n 64 with hn | hn
  · by_cases hc : n % 4 < 2
    · by_cases hA : n % 8 < 4
      · have e : n % 8 + 4 * (n / 8) = n % 4 + 2 * (n / 4) := by omega
        rcases Nat.lt_or_ge n 2 with h2 | h2
        · have d1 : ¬ 2 ≤ n := by omega
          simp [hn, hc, hA, e, d1]
        · have d2 : ¬ ((n - 2) % 8 < 4) := by omega
          simp [hn, hc, hA, e, d2]
      · have h2 : 2 ≤ n := by omega
        have dB : (n - 2) % 8 < 4 := by omega
        have e : (n - 2) % 8 + 4 * ((n - 2) / 8) = n % 4 + 2 * (n / 4) := by
          omega
        simp [hn, hc, hA, h2, dB, e]
    · simp [hc]
  · have dm : ¬ n < 64 := by omega
    have dr : x.testBit (n % 4 + 2 * (n / 4)) = false := testBit_ge hx (by omega)
    simp [dm, dr]

theorem ispread1_testBit (r x : ℕ) (hx : x < 2 ^ 32)
    (hr : ∀ m, r.testBit m =
      (decide (m % 4 < 2) && x.testBit (m % 4 + 2 * (m / 4)))) (n : ℕ) :
    (ispread1 r).testBit n =
      (decide (n % 2 < 1) && x.testBit (n % 2 + n / 2)) := by
  unfold ispread1
  rw [Nat.testBit_land, Nat.testBit_lor, Nat.testBit_shiftLeft, testBit_mask1,
    hr n, hr (n - 1)]
  rcases Nat.lt_or_ge n 64 with hn | hn
  · by_cases hc : n % 2 < 1
    · by_cases hA : n % 4 < 2
      · have e : n % 4 + 2 * (n / 4) = n % 2 + n / 2 := by omega
        rcases Nat.lt_or_ge n 1 with h1 | h1
        · have d1 : ¬ 1 ≤ n := by omega
          simp [hn, hc, hA, e, d1]
        · have d2 : ¬ ((n - 1) % 4 < 2) := by omega
          simp [hn, hc, hA, e, d2]
      · have h1 : 1 ≤ n := by omega
        have dB : (n - 1) % 4 < 2 := by omega
        have e : (n - 1) % 4 + 2 * ((n - 1) / 4) = n % 2 + n / 2 := by
          omega
        simp [hn, hc, hA, h1, dB, e]
    · simp [hc]
  · have dm : ¬ n < 64 := by omega
    have dr : x.testBit (n % 2 + n / 2) = false := testBit_ge hx (by omega)
    simp [dm, dr]

theorem interleave_testBit (x : ℕ) (n : ℕ) :
    (interleave x).testBit n =
      (decide (n % 2 < 1) && (x % 2 ^ 32).testBit (n % 2 + n / 2)) := by
  have hx : x % 2 ^ 32 < 2 ^ 32 := Nat.mod_lt _ (by norm_num)
  exact ispread1_testBit _ _ hx
    (ispread2_testBit _ _ hx
      (ispread4_testBit _ _ hx
        (ispread8_testBit _ _ hx
          (ispread16_testBit _ hx)))) n

theorem dgather1_testBit (z : ℕ) (n : ℕ) :
    (dgather1 z).testBit n =
      (decide (n < 64) && decide (n % 2 < 1) && z.testBit n) := by
  unfold dgather1
  rw [Nat.testBit_land, testBit_mask1]
  cases hz : z.testBit n <;> simp [hz, Bool.and_comm]

theorem dgather2_testBit (r z : ℕ)
    (hr : ∀ m, r.testBit m =
      (decide (m < 64) && decide (m % 2 < 1) && z.testBit m)) (n : ℕ) :
    (dgather2 r).testBit n =
      (decide (n < 64) && decide (n % 4 < 2) && z.testBit (n + n % 2)) := by
  unfold dgather2
  rw [Nat.testBit_land, Nat.testBit_lor, Nat.testBit_shiftRight, testBit_mask2,
    hr n, hr (1 + n)]
  rcases Nat.lt_or_ge n 64 with hn | hn
  · by_cases hc : n % 4 < 2
    · by_cases he : n % 2 < 1
      · have e : n + n % 2 = n := by omega
        have d1 : ¬ ((1 + n) % 2 < 1) := by omega
        simp [hn, hc, he, e, d1]
      · have h64 : 1 + n < 64 := by omega
        have he1 : (1 + n) % 2 < 1 := by omega
        simp [hn, hc, he, h64, he1]
        congr 1
        omega
    · simp [hc]
  · have d : ¬ n < 64 := by omega
    simp [d]

theorem dgather4_testBit (r z : ℕ)
    (hr : ∀ m, r.testBit m =
      (decide (m < 64) && decide (m % 4 < 2) && z.testBit (m + m % 2))) (n : ℕ) :
    (dgather4 r).testBit n =
      (decide (n < 64) && decide (n % 8 < 4) && z.testBit (n + n % 4)) := by
  unfold dgather4
  rw [Nat.testBit_land, Nat.testBit_lor, Nat.testBit_shiftRight, testBit_mask4,
    hr n, hr (2 + n)]
  rcases Nat.lt_or_ge n 64 with hn | hn
  · by_cases hc : n % 8 < 4
    · by_cases he : n % 4 < 2
      · have e : n + n % 2 = n + n % 4 := by omega
        have d1 : ¬ ((2 + n) % 4 < 2) := by omega
        simp [hn, hc, he, e, d1]
      · have h64 : 2 + n < 64 := by omega
        have he1 : (2 + n) % 4 < 2 := by omega
        simp [hn, hc, he, h64, he1]
        congr 1
        omega
    · simp [hc]
  · have d : ¬ n < 64 := by omega
    simp [d]

theorem dgather8_testBit (r z : ℕ)
    (hr : ∀ m, r.testBit m =
      (decide (m < 64) && decide (m % 8 < 4) && z.testBit (m + m % 4))) (n : ℕ) :
    (dgather8 r).testBit n =
      (decide (n < 64) && decide (n % 16 < 8) && z.testBit (n + n % 8)) := by
  unfold dgather8
  rw [Nat.testBit_land, Nat.testBit_lor, Nat.testBit_shiftRight, testBit_mask8,
    hr n, hr (4 + n)]
  rcases Nat.lt_or_ge n 64 with hn | hn
  · by_cases hc : n % 16 < 8
    · by_cases he : n % 8 < 4
      · have e : n + n % 4 = n + n % 8 := by omega
        have d1 : ¬ ((4 + n) % 8 < 4) := by omega
        simp [hn, hc, he, e, d1]
      · have h64 : 4 + n < 64 := by omega
        have he1 : (4 + n) % 8 < 4 := by omega
        simp [hn, hc, he, h64, he1]
        congr 1
        omega
    · simp [hc]
  · have d : ¬ n < 64 := by omega
    simp [d]

theorem dgather16_testBit (r z : ℕ)
    (hr : ∀ m, r.testBit m =
      (decide (m < 64) && decide (m % 16 < 8) && z.testBit (m + m % 8))) (n : ℕ) :
    (dgather16 r).testBit n =
      (decide (n < 64) && decide (n % 32 < 16) && z.testBit (n + n % 16)) := by
  unfold dgather16
  rw [Nat.testBit_land, Nat.testBit_lor, Nat.testBit_shiftRight, testBit_mask16,
    hr n, hr (8 + n)]
  rcases Nat.lt_or_ge n 64 with hn | hn
  · by_cases hc : n % 32 < 16
    · by_cases he : n % 16 < 8
      · have e : n + n % 8 = n + n % 16 := by omega
        have d1 : ¬ ((8 + n) % 16 < 8) := by omega
        simp [hn, hc, he, e, d1]
      · have h64 : 8 + n < 64 := by omega
        have he1 : (8 + n) % 16 < 8 := by omega
        simp [hn, hc, he, h64, he1]
        congr 1
        omega
    · simp [hc]
  · have d : ¬ n < 64 := by omega
    simp [d]

theorem dgather32_testBit (r z : ℕ)
    (hr : ∀ m, r.testBit m =
      (decide (m < 64) && decide (m % 32 < 16) && z.testBit (m + m % 16))) (n : ℕ) :
    (dgather32 r).testBit n = (decide (n < 32) && z.testBit (n + n % 32)) := by
  unfold dgather32
  rw [Nat.testBit_land, Nat.testBit_lor, Nat.testBit_shiftRight, testBit_mask32,
    hr n, hr (16 + n)]
  rcases Nat.lt_or_ge n 32 with hn | hn
  · by_cases he : n % 32 < 16
    · have h64 : n < 64 := by omega
      have e : n + n % 16 = n + n % 32 := by omega
      have d1 : ¬ ((16 + n) % 32 < 16) := by omega
      simp [hn, he, h64, e, d1]
    · have h64 : 16 + n < 64 := by omega
      have he1 : (16 + n) % 32 < 16 := by omega
      simp [hn, he, h64, he1]
      congr 1
      omega
  · have d : ¬ n < 32 := by omega
    simp [d]

theorem deinterleave_testBit (z : ℕ) (n : ℕ) :
    (deinterleave z).testBit n = (decide (n < 32) && z.testBit (n + n % 32)) := by
  exact dgather32_testBit _ _
    (dgather16_testBit _ _
      (dgather8_testBit _ _
        (dgather4_testBit _ _
          (dgather2_testBit _ _ (dgather1_testBit z))))) n

theorem interleave_le (x : ℕ) : interleave x ≤ 0x5555555555555555 := by
  unfold interleave ispread1
  exact Nat.and_le_right

theorem encode_lt (x y : ℕ) : encode x y < 2 ^ 64 := by
  have h1 := interleave_le x
  have h2 := interleave_le y
  have h3 : interleave y <<< 1 = interleave y * 2 ^ 1 := Nat.shiftLeft_eq _ _
  norm_num at h3
  have h4 : interleave x < 2 ^ 64 := by omega
  have h5 : interleave y <<< 1 < 2 ^ 64 := by omega
  exact Nat.or_lt_two_pow h4 h5

theorem deinterleave_encode (x y : ℕ) :
    deinterleave (encode x y) = x % 2 ^ 32 := by
  apply Nat.eq_of_testBit_eq
  intro n
  rw [deinterleave_testBit]
  rcases Nat.lt_or_ge n 32 with hn | hn
  · have e2 : n + n % 32 = 2 * n := by omega
    rw [e2]
    unfold encode
    rw [Nat.testBit_lor, Nat.testBit_shiftLeft, interleave_testBit,
      interleave_testBit]
    have ha : (2 * n) % 2 < 1 := by omega
    have hb : (2 * n) % 2 + (2 * n) / 2 = n := by omega
    rcases Nat.eq_zero_or_pos n with h0 | h0
    · subst h0
      simp [ha, hb, hn]
    · have hc : ¬ ((2 * n - 1) % 2 < 1) := by omega
      have hd : 1 ≤ 2 * n := by omega
      simp [ha, hb, hc, hd, hn]
  · have d1 : ¬ n < 32 := by omega
    have d2 : (x % 2 ^ 32).testBit n =
        false := testBit_ge (Nat.mod_lt _ (by norm_num)) hn
    rw [d2]
    simp [d1]

theorem deinterleave_encode_shift (x y : ℕ) :
    deinterleave (encode x y >>> 1) = y % 2 ^ 32 := by
  apply Nat.eq_of_testBit_eq
  intro n
  rw [deinterleave_testBit]
  rcases Nat.lt_or_ge n 32 with hn | hn
  · rw [Nat.testBit_shiftRight]
    have e2 : 1 + (n + n % 32) = 2 * n + 1 := by omega
    rw [e2]
    unfold encode
    rw [Nat.testBit_lor, Nat.testBit_shiftLeft, interleave_testBit,
      interleave_testBit]
    have ha : ¬ ((2 * n + 1) % 2 < 1) := by omega
    have hb : (2 * n + 1 - 1) % 2 < 1 := by omega
    have hc : (2 * n + 1 - 1) % 2 + (2 * n + 1 - 1) / 2 = n := by omega
    have hd : 1 ≤ 2 * n + 1 := by omega
    simp [ha, hb, hc, hd, hn]
  · have d1 : ¬ n < 32 := by omega
    have d2 : (y % 2 ^ 32).testBit n =
        false := testBit_ge (Nat.mod_lt _ (by norm_num)) hn
    rw [d2]
    simp [d1]

theorem zorder_roundtrip (x y : ℕ) (hx : x < 2 ^ 32) (hy : y < 2 ^ 32) :
    decode (encode x y) = (x, y) := by
  unfold decode
  rw [Nat.mod_eq_of_lt (encode_lt x y), deinterleave_encode,
    deinterleave_encode_shift, Nat.mod_eq_of_lt hx, Nat.mod_eq_of_lt hy]

end ZOrderCurve

/-- C9: `ZOrderCurve::decode` inverts `ZOrderCurve::encode` on every pair
of 32-bit coordinates; consequently `encode` is injective on the
quantized grid — distinct coordinate pairs produce distinct 64-bit
keys. -/
theorem zorder_decode_encode (x y : ℕ) (hx : x < 2 ^ 32) (hy : y < 2 ^ 32) :
    ZOrderCurve.decode (ZOrderCurve.encode x y) = (x, y) ∧
    (∀ x' y', x' < 2 ^ 32 → y' < 2 ^ 32 →
      ZOrderCurve.encode x y = ZOrderCurve.encode x' y' → x = x' ∧ y = y') := by
  refine ⟨ZOrderCurve.zorder_roundtrip x y hx hy, ?_⟩
  intro x' y' hx' hy' he
  have h1 := ZOrderCurve.zorder_roundtrip x y hx hy
  have h2 := ZOrderCurve.zorder_roundtrip x' y' hx' hy'
  rw [he, h2] at h1
  exact ⟨(Prod.mk.injEq _ _ _ _).mp h1.symm |>.1,
    (Prod.mk.injEq _ _ _ _).mp h1.symm |>.2⟩

/-- Witness for C9: the roundtrip at the concrete pair (3, 5). -/
theorem zorder_decode_encode_witness :
    (3 : ℕ) < 2 ^ 32 ∧ (5 : ℕ) < 2 ^ 32 ∧
      ZOrderCurve.decode (ZOrderCurve.encode 3 5) = (3, 5) :=
  ⟨by norm_num, by norm_num,
    (zorder_decode_encode 3 5 (by norm_num) (by norm_num)).1⟩

/-- C4 (amended): `create_ip_block` fails — with the "Parent block not
found" error, the code's rendition of `BlockNotFound` — exactly when the
named parent does not exist; it performs no duplicate-name check at all:
whenever it succeeds it adds one more block with the requested name under
the first pre-order occurrence of the parent, even if a block of that
name already exists. -/
theorem create_ip_block_no_duplicate_check (idx : HierarchicalSpatialIndex)
    (nm : String) (bd : Rectangle ℚ) (parent : String)
    (hroot : idx.root_block.name = "root") :
    ((idx.create_ip_block nm bd parent).isOk = true ↔
      (idx.find_block parent).isSome = true) ∧
    (∀ idx', idx.create_ip_block nm bd parent = Except.ok idx' →
      idx'.root_block.countName nm = idx.root_block.countName nm + 1) := by
  constructor
  · cases hf : idx.find_block parent with
    | none => simp [HierarchicalSpatialIndex.create_ip_block, hf, Except.isOk, Except.toBool]
    | some p => simp [HierarchicalSpatialIndex.create_ip_block, hf, Except.isOk, Except.toBool]
  · intro idx' h
    cases hf : idx.find_block parent with
    | none => simp [HierarchicalSpatialIndex.create_ip_block, hf] at h
    | some p =>
      simp only [HierarchicalSpatialIndex.create_ip_block, hf,
        Except.ok.injEq] at h
      subst h
      have hsearch : (idx.root_block.search parent).isSome = true := by
        by_cases hp : parent = "root"
        · subst hp
          cases hb : idx.root_block with
          | mk n bdr lr subsr =>
            rw [hb] at hroot
            simp only [IPBlock.name] at hroot
            simp [IPBlock.search, hroot]
        · rw [HierarchicalSpatialIndex.find_block, if_neg hp] at hf
          simp [hf]
      have hfound : (idx.root_block.attachChild parent
          (IPBlock.mk nm bd (p.level + 1) [])).2 = true := by
        rw [attachChild_snd]
        exact hsearch
      rw [attachChild_countName _ _ _ _ hfound]
      simp [IPBlock.countName, IPBlock.countNameList]

/-- Witness for C4: creating a block named `b` under the fresh root
succeeds and brings the count of blocks named `b` to one. -/
theorem create_ip_block_no_duplicate_check_witness :
    (HierarchicalSpatialIndex.new ⟨0, 0, 100, 100⟩).root_block.name = "root" ∧
    (∀ idx', (HierarchicalSpatialIndex.new ⟨0, 0, 100, 100⟩).create_ip_block
        "b" ⟨0, 0, 10, 10⟩ "root" = Except.ok idx' →
      idx'.root_block.countName "b" =
        (HierarchicalSpatialIndex.new ⟨0, 0, 100, 100⟩).root_block.countName
          "b" + 1) :=
  ⟨rfl, (create_ip_block_no_duplicate_check
    (HierarchicalSpatialIndex.new ⟨0, 0, 100, 100⟩) "b" ⟨0, 0, 10, 10⟩ "root"
    rfl).2⟩

/-- C4 (counterexample): with a block named `a` already in the hierarchy,
`create_ip_block("a", ..., "root")` does not fail with
`DuplicateBlockName` — it succeeds and attaches a second block named
`a`. -/
theorem create_ip_block_accepts_duplicate_name :
    (HierarchicalSpatialIndex.new ⟨0, 0, 100, 100⟩).create_ip_block "a"
        ⟨0, 0, 10, 10⟩ "root" =
      Except.ok ⟨IPBlock.mk "root" ⟨0, 0, 100, 100⟩ 0
        [IPBlock.mk "a" ⟨0, 0, 10, 10⟩ 1 []]⟩ ∧
    ((⟨IPBlock.mk "root" ⟨0, 0, 100, 100⟩ 0
        [IPBlock.mk "a" ⟨0, 0, 10, 10⟩ 1 []]⟩ :
          HierarchicalSpatialIndex).find_block "a").isSome = true ∧
    (⟨IPBlock.mk "root" ⟨0, 0, 100, 100⟩ 0
        [IPBlock.mk "a" ⟨0, 0, 10, 10⟩ 1 []]⟩ :
          HierarchicalSpatialIndex).create_ip_block "a" ⟨20, 20, 10, 10⟩
        "root" =
      Except.ok ⟨IPBlock.mk "root" ⟨0, 0, 100, 100⟩ 0
        [IPBlock.mk "a" ⟨0, 0, 10, 10⟩ 1 [],
         IPBlock.mk "a" ⟨20, 20, 10, 10⟩ 1 []]⟩ :=
  ⟨rfl, rfl, rfl⟩


/-- A left fold of `min` never exceeds its seed. -/
theorem foldl_min_le_init (l : List ℝ) (a : ℝ) : l.foldl min a ≤ a := by
  induction l generalizing a with
  | nil => exact le_refl a
  | cons x xs ih => exact le_trans (ih (min a x)) (min_le_left a x)

/-- A left fold of `min` is a lower bound of the list. -/
theorem foldl_min_le_mem (l : List ℝ) (a : ℝ) (x : ℝ) (hx : x ∈ l) :
    l.foldl min a ≤ x := by
  induction l generalizing a with
  | nil => cases hx
  | cons y ys ih =>
    rcases List.mem_cons.mp hx with h | h
    · subst h
      exact le_trans (foldl_min_le_init ys (min a x)) (min_le_right a x)
    · exact ih (min a y) h

/-- A left fold of `min` is the seed or an element of the list. -/
theorem foldl_min_cases (l : List ℝ) (a : ℝ) :
    l.foldl min a = a ∨ l.foldl min a ∈ l := by
  induction l generalizing a with
  | nil => exact Or.inl rfl
  | cons y ys ih =>
    rcases ih (min a y) with h | h
    · rcases min_cases a y with ⟨he, _⟩ | ⟨he, _⟩
      · exact Or.inl (by rw [List.foldl_cons, h, he])
      · exact Or.inr (by rw [List.foldl_cons, h, he]; exact List.mem_cons_self y ys)
    · exact Or.inr (List.mem_cons_of_mem y h)

/-- C2 (amended): `Polygon::distance_to(Point)` is the minimum over the
edges of the point-to-segment distance, seeded with
`std::numeric_limits<double>::max()` — with no containment shortcut, so
nothing forces the value to zero for interior points (see the
counterexample). -/
theorem polygon_distance_to_point_is_min_over_edges (P : Polygon)
    (p : ZLayout.Point ℝ) :
    (∀ e ∈ P.edges, P.distance_to_point p ≤ p.distance_to_line e.1 e.2) ∧
    P.distance_to_point p ≤ DBL_MAX ∧
    (P.distance_to_point p = DBL_MAX ∨
      ∃ e ∈ P.edges, P.distance_to_point p = p.distance_to_line e.1 e.2) := by
  refine ⟨?_, ?_, ?_⟩
  · intro e he
    exact foldl_min_le_mem _ _ _ (List.mem_map_of_mem _ he)
  · exact foldl_min_le_init _ _
  · rcases foldl_min_cases (P.edges.map (fun e => p.distance_to_line e.1 e.2))
        DBL_MAX with h | h
    · exact Or.inl h
    · obtain ⟨e, he, heq⟩ := List.mem_map.mp h
      exact Or.inr ⟨e, he, heq.symm⟩

/-- C2 (counterexample): the centre `(2,2)` of the square with corners
`(0,0)` and `(4,4)` is inside by the ray cast, yet `distance_to` returns
the distance 2 to the nearest edge, not 0: the source never consults
`contains_point`. -/
theorem polygon_contains_point_distance_positive :
    Polygon.contains_point
      ⟨[⟨0, 0⟩, ⟨4, 0⟩, ⟨4, 4⟩, ⟨0, 4⟩], by norm_num⟩ ⟨2, 2⟩ = true ∧
    Polygon.distance_to_point
      ⟨[⟨0, 0⟩, ⟨4, 0⟩, ⟨4, 4⟩, ⟨0, 4⟩], by norm_num⟩ ⟨2, 2⟩ = 2 ∧
    Polygon.distance_to_point
      ⟨[⟨0, 0⟩, ⟨4, 0⟩, ⟨4, 4⟩, ⟨0, 4⟩], by norm_num⟩ ⟨2, 2⟩ ≠ 0 := by
  have s4 : Real.sqrt 4 = 2 := by
    rw [show (4 : ℝ) = 2 ^ 2 by norm_num]
    exact Real.sqrt_sq (by norm_num)
  have hdist : Polygon.distance_to_point
      ⟨[⟨0, 0⟩, ⟨4, 0⟩, ⟨4, 4⟩, ⟨0, 4⟩], by norm_num⟩ ⟨2, 2⟩ = 2 := by
    have hD : (2 : ℝ) ≤ DBL_MAX := by norm_num [DBL_MAX]
    norm_num [Polygon.distance_to_point, Polygon.edges, List.rotate,
      Point.distance_to_line, Point.sub, Point.add, Point.smul,
      Point.dot, Point.magnitude_squared, Point.distance_to, TOLERANCE, s4,
      min_eq_right, hD, min_eq_left]
  refine ⟨?_, hdist, by rw [hdist]; norm_num⟩
  norm_num [Polygon.contains_point, List.rotate, List.foldl]

/-- The bottom edges of the two triangles used against C5 form a narrow
pair: their segment distance 1 is below the threshold 2, so
`find_narrow_regions` reports their midpoints with it. -/
theorem narrow_pair_reported :
    ((⟨5 / 2, 0⟩, ⟨17 / 2, 0⟩, (1 : ℝ)) ∈
      Polygon.find_narrow_regions ⟨[⟨0, 0⟩, ⟨5, 0⟩, ⟨2, 4⟩], by norm_num⟩
        ⟨[⟨6, 0⟩, ⟨11, 0⟩, ⟨8, 4⟩], by norm_num⟩ 2) := by
  have s36 : Real.sqrt 36 = 6 := by
    rw [show (36 : ℝ) = 6 ^ 2 by norm_num]
    exact Real.sqrt_sq (by norm_num)
  have d1 : Point.distance_to_line ⟨0, 0⟩ ⟨6, 0⟩ ⟨11, 0⟩ = 6 := by
    norm_num [Point.distance_to_line, Point.sub, Point.add, Point.smul,
      Point.dot, Point.magnitude_squared, Point.distance_to, TOLERANCE, s36]
  have d2 : Point.distance_to_line ⟨5, 0⟩ ⟨6, 0⟩ ⟨11, 0⟩ = 1 := by
    norm_num [Point.distance_to_line, Point.sub, Point.add, Point.smul,
      Point.dot, Point.magnitude_squared, Point.distance_to, TOLERANCE,
      Real.sqrt_one]
  have d3 : Point.distance_to_line ⟨6, 0⟩ ⟨0, 0⟩ ⟨5, 0⟩ = 1 := by
    norm_num [Point.distance_to_line, Point.sub, Point.add, Point.smul,
      Point.dot, Point.magnitude_squared, Point.distance_to, TOLERANCE,
      Real.sqrt_one]
  have d4 : Point.distance_to_line ⟨11, 0⟩ ⟨0, 0⟩ ⟨5, 0⟩ = 6 := by
    norm_num [Point.distance_to_line, Point.sub, Point.add, Point.smul,
      Point.dot, Point.magnitude_squared, Point.distance_to, TOLERANCE, s36]
  have hseg : Polygon.segment_to_segment_distance ⟨0, 0⟩ ⟨5, 0⟩ ⟨6, 0⟩
      ⟨11, 0⟩ = 1 := by
    rw [Polygon.segment_to_segment_distance, d1, d2, d3, d4]
    norm_num
  apply List.mem_flatMap.mpr
  refine ⟨(⟨0, 0⟩, ⟨5, 0⟩), by norm_num [Polygon.edges, List.rotate], ?_⟩
  apply List.mem_filterMap.mpr
  refine ⟨(⟨6, 0⟩, ⟨11, 0⟩), by norm_num [Polygon.edges, List.rotate], ?_⟩
  show (let dist := Polygon.segment_to_segment_distance ⟨0, 0⟩ ⟨5, 0⟩ ⟨6, 0⟩ ⟨11, 0⟩
    ; if dist < 2 then some (Point.mid ⟨0, 0⟩ ⟨5, 0⟩, Point.mid ⟨6, 0⟩ ⟨11, 0⟩, dist)
      else none) = some (⟨5 / 2, 0⟩, ⟨17 / 2, 0⟩, (1 : ℝ))
  rw [show (let dist := Polygon.segment_to_segment_distance ⟨0, 0⟩ ⟨5, 0⟩ ⟨6, 0⟩ ⟨11, 0⟩
    ; if dist < 2 then some (Point.mid (⟨0, 0⟩ : ZLayout.Point ℝ) ⟨5, 0⟩,
        Point.mid (⟨6, 0⟩ : ZLayout.Point ℝ) ⟨11, 0⟩, dist)
      else none) = (if Polygon.segment_to_segment_distance ⟨0, 0⟩ ⟨5, 0⟩ ⟨6, 0⟩ ⟨11, 0⟩ < 2
        then some (Point.mid (⟨0, 0⟩ : ZLayout.Point ℝ) ⟨5, 0⟩,
          Point.mid (⟨6, 0⟩ : ZLayout.Point ℝ) ⟨11, 0⟩,
          Polygon.segment_to_segment_distance ⟨0, 0⟩ ⟨5, 0⟩ ⟨6, 0⟩ ⟨11, 0⟩) else none) from rfl,
    hseg]
  norm_num [Point.mid]

/-- C5 (amended): every triple reported by `find_narrow_regions` consists
of the midpoints of an edge pair, which do lie on their respective edges,
together with the segment-to-segment distance of that pair, below the
threshold; the distance between the two reported midpoints need not equal
the reported distance (see the counterexample). -/
theorem find_narrow_regions_entries (P other : Polygon) (τ : ℝ)
    (t : ZLayout.Point ℝ × ZLayout.Point ℝ × ℝ)
    (ht : t ∈ Polygon.find_narrow_regions P other τ) :
    ∃ e1 ∈ P.edges, ∃ e2 ∈ other.edges,
      t = (Point.mid e1.1 e1.2, Point.mid e2.1 e2.2,
        Polygon.segment_to_segment_distance e1.1 e1.2 e2.1 e2.2) ∧
      Polygon.segment_to_segment_distance e1.1 e1.2 e2.1 e2.2 < τ ∧
      (∃ s, 0 ≤ s ∧ s ≤ 1 ∧ t.1 = e1.1.add ((e1.2.sub e1.1).smul s)) ∧
      (∃ s, 0 ≤ s ∧ s ≤ 1 ∧ t.2.1 = e2.1.add ((e2.2.sub e2.1).smul s)) := by
  unfold Polygon.find_narrow_regions at ht
  obtain ⟨e1, he1, hmem⟩ := List.mem_flatMap.mp ht
  obtain ⟨e2, he2, heq⟩ := List.mem_filterMap.mp hmem
  refine ⟨e1, he1, e2, he2, ?_⟩
  have mid_on : ∀ a b : ZLayout.Point ℝ,
      Point.mid a b = a.add ((b.sub a).smul (1 / 2)) := by
    intro a b
    simp only [Point.mid, Point.add, Point.sub, Point.smul, Point.mk.injEq]
    constructor <;> ring
  by_cases hd : Polygon.segment_to_segment_distance e1.1 e1.2 e2.1 e2.2 < τ
  · rw [if_pos hd] at heq
    obtain rfl := Option.some.inj heq
    exact ⟨rfl, hd, ⟨1 / 2, by norm_num, by norm_num, mid_on e1.1 e1.2⟩,
      ⟨1 / 2, by norm_num, by norm_num, mid_on e2.1 e2.2⟩⟩
  · rw [if_neg hd] at heq
    cases heq

/-- C5 (counterexample): for the triangles with bottom edges
`(0,0)-(5,0)` and `(6,0)-(11,0)` and threshold 2, the returned triple
carries the reported distance 1 but its two midpoints are 6 apart:
`| ||p1-p2|| - d | = 5`, far beyond `1e-8`. -/
theorem find_narrow_regions_midpoint_gap :
    ((⟨5 / 2, 0⟩, ⟨17 / 2, 0⟩, (1 : ℝ)) ∈
      Polygon.find_narrow_regions ⟨[⟨0, 0⟩, ⟨5, 0⟩, ⟨2, 4⟩], by norm_num⟩
        ⟨[⟨6, 0⟩, ⟨11, 0⟩, ⟨8, 4⟩], by norm_num⟩ 2) ∧
    Point.distance_to ⟨5 / 2, 0⟩ ⟨17 / 2, 0⟩ = 6 ∧
    ¬ (|Point.distance_to ⟨5 / 2, 0⟩ ⟨17 / 2, 0⟩ - 1| < 1 / 10 ^ 8) := by
  have s36 : Real.sqrt 36 = 6 := by
    rw [show (36 : ℝ) = 6 ^ 2 by norm_num]
    exact Real.sqrt_sq (by norm_num)
  exact ⟨narrow_pair_reported, by norm_num [Point.distance_to, s36],
    by norm_num [Point.distance_to, s36]⟩

/-- Witness for C5: the amended description instantiated on the concrete
triple reported for the two triangles. -/
theorem find_narrow_regions_entries_witness :
    ((⟨5 / 2, 0⟩, ⟨17 / 2, 0⟩, (1 : ℝ)) ∈
      Polygon.find_narrow_regions ⟨[⟨0, 0⟩, ⟨5, 0⟩, ⟨2, 4⟩], by norm_num⟩
        ⟨[⟨6, 0⟩, ⟨11, 0⟩, ⟨8, 4⟩], by norm_num⟩ 2) ∧
    (∃ e1 ∈ (⟨[⟨0, 0⟩, ⟨5, 0⟩, ⟨2, 4⟩], by norm_num⟩ : Polygon).edges,
      ∃ e2 ∈ (⟨[⟨6, 0⟩, ⟨11, 0⟩, ⟨8, 4⟩], by norm_num⟩ : Polygon).edges,
      ((⟨5 / 2, 0⟩, ⟨17 / 2, 0⟩, (1 : ℝ)) : ZLayout.Point ℝ × ZLayout.Point ℝ × ℝ) =
        (Point.mid e1.1 e1.2, Point.mid e2.1 e2.2,
          Polygon.segment_to_segment_distance e1.1 e1.2 e2.1 e2.2) ∧
      Polygon.segment_to_segment_distance e1.1 e1.2 e2.1 e2.2 < 2 ∧
      (∃ s, 0 ≤ s ∧ s ≤ 1 ∧
        (⟨5 / 2, 0⟩ : ZLayout.Point ℝ) = e1.1.add ((e1.2.sub e1.1).smul s)) ∧
      (∃ s, 0 ≤ s ∧ s ≤ 1 ∧
        (⟨17 / 2, 0⟩ : ZLayout.Point ℝ) = e2.1.add ((e2.2.sub e2.1).smul s))) :=
  ⟨narrow_pair_reported,
    find_narrow_regions_entries _ _ 2 _ narrow_pair_reported⟩


/-- `arccos(√2/2) = π/4`. -/
theorem arccos_sqrt_two_div_two : Real.arccos (Real.sqrt 2 / 2) = Real.pi / 4 := by
  rw [← Real.cos_pi_div_four]
  exact Real.arccos_cos (by positivity) (by linarith [Real.pi_pos])

/-- `9 < √82`. -/
theorem sqrt82_gt_nine : (9 : ℝ) < Real.sqrt 82 := by
  rw [show (9 : ℝ) = Real.sqrt 81 by
    rw [show (81 : ℝ) = 9 ^ 2 by norm_num]; exact (Real.sqrt_sq (by norm_num)).symm]
  exact Real.sqrt_lt_sqrt (by norm_num) (by norm_num)

/-- `√2/2` lies in the arccos domain. -/
theorem sqrt2_div_two_mem : Real.sqrt 2 / 2 ∈ Set.Icc (-1 : ℝ) 1 := by
  constructor
  · have := Real.sqrt_nonneg 2
    linarith
  · have h : Real.sqrt 2 < 2 := by
      rw [Real.sqrt_lt' (by norm_num)]
      norm_num
    linarith

/-- `9/√82` lies in the arccos domain. -/
theorem nine_div_sqrt82_mem : (9 / Real.sqrt 82) ∈ Set.Icc (-1 : ℝ) 1 := by
  have h9 := sqrt82_gt_nine
  have hpos : (0 : ℝ) < Real.sqrt 82 := by linarith
  constructor
  · have h : (0 : ℝ) ≤ 9 / Real.sqrt 82 := by positivity
    linarith
  · rw [div_le_one hpos]
    linarith

/-- The cusp-adjacent corners of the E2 polygon have cosine `9/√82`,
whose arccos is below `π/4`. -/
theorem sharp_cos_case : Real.arccos (9 / Real.sqrt 82) < Real.pi / 4 := by
  rw [← arccos_sqrt_two_div_two]
  apply Real.strictAntiOn_arccos sqrt2_div_two_mem nine_div_sqrt82_mem
  have h82 : Real.sqrt 82 ^ 2 = 82 := Real.sq_sqrt (by norm_num)
  have h2 : Real.sqrt 2 ^ 2 = 2 := Real.sq_sqrt (by norm_num)
  have hp82 : (0 : ℝ) < Real.sqrt 82 := by positivity
  have hp2 : (0 : ℝ) ≤ Real.sqrt 2 := Real.sqrt_nonneg 2
  rw [div_lt_div_iff₀ (by norm_num) hp82]
  nlinarith [sq_nonneg (Real.sqrt 2 * Real.sqrt 82 - 18)]

/-- The angle at the `(1,1)` cusp, `arccos(-9/41)`, exceeds `π/4`. -/
theorem obtuse_lo : Real.pi / 4 < Real.arccos (-(9 / 41)) := by
  rw [← arccos_sqrt_two_div_two]
  apply Real.strictAntiOn_arccos (by norm_num) sqrt2_div_two_mem
  have := Real.sqrt_nonneg 2
  norm_num
  linarith

/-- The angle at the `(1,1)` cusp, `arccos(-9/41)`, stays below `π - π/4`. -/
theorem obtuse_hi : Real.arccos (-(9 / 41)) < Real.pi - Real.pi / 4 := by
  have h1 : Real.arccos (-(Real.sqrt 2 / 2)) = Real.pi - Real.pi / 4 := by
    rw [Real.arccos_neg, arccos_sqrt_two_div_two]
  rw [← h1]
  apply Real.strictAntiOn_arccos (by
    constructor
    · have := sqrt2_div_two_mem.2
      linarith
    · have := sqrt2_div_two_mem.1
      linarith) (by norm_num)
  have h : (18 : ℝ) / 41 < Real.sqrt 2 := by
    have := Real.lt_sqrt (show (0:ℝ) ≤ 18/41 by norm_num) (y := 2)
    rw [this]
    norm_num
  norm_num
  linarith

/-- Vertex 1 of the E2 polygon is reported sharp at threshold 45°. -/
theorem sharp_angles_mem_one : (1 : ℕ) ∈ Polygon.get_sharp_angles
    ⟨[⟨0, 0⟩, ⟨10, 0⟩, ⟨1, 1⟩, ⟨0, 10⟩], by norm_num⟩ 45 := by
  unfold Polygon.get_sharp_angles
  rw [List.mem_filter]
  refine ⟨by norm_num, ?_⟩
  have s100 : Real.sqrt 100 = 10 := by
    rw [show (100 : ℝ) = 10 ^ 2 by norm_num]
    exact Real.sqrt_sq (by norm_num)
  have h82 := sqrt82_gt_nine
  have hm1 : ¬ ((10 : ℝ) < TOLERANCE) := by norm_num [TOLERANCE]
  have hm2 : ¬ (Real.sqrt 82 < TOLERANCE) := by
    rw [TOLERANCE]
    norm_num
    nlinarith
  have hpos : (0 : ℝ) < Real.sqrt 82 := by linarith
  have hcos : (90 : ℝ) / (10 * Real.sqrt 82) = 9 / Real.sqrt 82 := by
    rw [div_eq_div_iff (by positivity) (by positivity)]
    ring
  have hmin : min (1 : ℝ) (9 / Real.sqrt 82) = 9 / Real.sqrt 82 :=
    min_eq_right nine_div_sqrt82_mem.2
  have hmax : max (-1 : ℝ) (9 / Real.sqrt 82) = 9 / Real.sqrt 82 :=
    max_eq_right nine_div_sqrt82_mem.1
  have hthr : (45 : ℝ) * Real.pi / 180 = Real.pi / 4 := by ring
  norm_num [List.getD, Point.sub, Point.dot, Point.magnitude, s100, hm1, hm2,
    hcos, hmin, hmax, hthr, sharp_cos_case]

/-- Vertex 3 of the E2 polygon is reported sharp at threshold 45°. -/
theorem sharp_angles_mem_three : (3 : ℕ) ∈ Polygon.get_sharp_angles
    ⟨[⟨0, 0⟩, ⟨10, 0⟩, ⟨1, 1⟩, ⟨0, 10⟩], by norm_num⟩ 45 := by
  unfold Polygon.get_sharp_angles
  rw [List.mem_filter]
  refine ⟨by norm_num, ?_⟩
  have s100 : Real.sqrt 100 = 10 := by
    rw [show (100 : ℝ) = 10 ^ 2 by norm_num]
    exact Real.sqrt_sq (by norm_num)
  have h82 := sqrt82_gt_nine
  have hm1 : ¬ ((10 : ℝ) < TOLERANCE) := by norm_num [TOLERANCE]
  have hm2 : ¬ (Real.sqrt 82 < TOLERANCE) := by
    rw [TOLERANCE]
    norm_num
    nlinarith
  have hcos : (90 : ℝ) / (Real.sqrt 82 * 10) = 9 / Real.sqrt 82 := by
    rw [div_eq_div_iff (by positivity) (by positivity)]
    ring
  have hmin : min (1 : ℝ) (9 / Real.sqrt 82) = 9 / Real.sqrt 82 :=
    min_eq_right nine_div_sqrt82_mem.2
  have hmax : max (-1 : ℝ) (9 / Real.sqrt 82) = 9 / Real.sqrt 82 :=
    max_eq_right nine_div_sqrt82_mem.1
  have hthr : (45 : ℝ) * Real.pi / 180 = Real.pi / 4 := by ring
  norm_num [List.getD, Point.sub, Point.dot, Point.magnitude, s100, hm1, hm2,
    hcos, hmin, hmax, hthr, sharp_cos_case]

/-- Vertex 0 of the E2 polygon (a right angle) is not reported sharp. -/
theorem sharp_angles_not_mem_zero : (0 : ℕ) ∉ Polygon.get_sharp_angles
    ⟨[⟨0, 0⟩, ⟨10, 0⟩, ⟨1, 1⟩, ⟨0, 10⟩], by norm_num⟩ 45 := by
  unfold Polygon.get_sharp_angles
  rw [List.mem_filter]
  simp only [not_and]
  intro _
  have s100 : Real.sqrt 100 = 10 := by
    rw [show (100 : ℝ) = 10 ^ 2 by norm_num]
    exact Real.sqrt_sq (by norm_num)
  have hm1 : ¬ ((10 : ℝ) < TOLERANCE) := by norm_num [TOLERANCE]
  have hthr : (45 : ℝ) * Real.pi / 180 = Real.pi / 4 := by ring
  have hpi := Real.pi_pos
  have hno1 : ¬ (Real.arccos 0 < Real.pi / 4) := by
    rw [Real.arccos_zero]
    push_neg
    linarith
  have hno2 : ¬ (Real.arccos 0 > Real.pi - Real.pi / 4) := by
    rw [Real.arccos_zero]
    push_neg
    linarith
  norm_num [List.getD, Point.sub, Point.dot, Point.magnitude, s100, hm1,
    hthr, hno1, hno2]
  constructor <;> linarith

/-- Vertex 2 of the E2 polygon — the `(1,1)` cusp — is NOT reported
sharp: its reflex geometry gives `cos = -9/41`, whose arccos lies in
`(π/4, π - π/4)`. -/
theorem sharp_angles_not_mem_two : (2 : ℕ) ∉ Polygon.get_sharp_angles
    ⟨[⟨0, 0⟩, ⟨10, 0⟩, ⟨1, 1⟩, ⟨0, 10⟩], by norm_num⟩ 45 := by
  unfold Polygon.get_sharp_angles
  rw [List.mem_filter]
  simp only [not_and]
  intro _
  have h82 := sqrt82_gt_nine
  have hm2 : ¬ (Real.sqrt 82 < TOLERANCE) := by
    rw [TOLERANCE]
    norm_num
    nlinarith
  have hmm : Real.sqrt 82 * Real.sqrt 82 = 82 := Real.mul_self_sqrt (by norm_num)
  have hcos : (-18 : ℝ) / 82 = -9 / 41 := by norm_num
  have hmin : min (1 : ℝ) (-9 / 41) = -9 / 41 := min_eq_right (by norm_num)
  have hmax : max (-1 : ℝ) (-9 / 41) = -9 / 41 := max_eq_right (by norm_num)
  have hthr : (45 : ℝ) * Real.pi / 180 = Real.pi / 4 := by ring
  norm_num [List.getD, Point.sub, Point.dot, Point.magnitude, hm2, hmm, hcos,
    hmin, hmax, hthr]
  exact ⟨obtuse_lo.le, obtuse_hi.le⟩

/-- C6 (amended): on the E2 polygon `[(0,0),(10,0),(1,1),(0,10)]` with
threshold 45°, `get_sharp_angles` reports vertices 1 and 3 (the corners
flanking the cusp, each with angle `arccos(9/√82) < 45°`) and reports
neither vertex 0 (a right angle) nor the cusp vertex 2 itself, whose
angle `arccos(-9/41)` lies strictly between 45° and 135°. -/
theorem get_sharp_angles_E2 :
    ((1 : ℕ) ∈ Polygon.get_sharp_angles
      ⟨[⟨0, 0⟩, ⟨10, 0⟩, ⟨1, 1⟩, ⟨0, 10⟩], by norm_num⟩ 45) ∧
    ((3 : ℕ) ∈ Polygon.get_sharp_angles
      ⟨[⟨0, 0⟩, ⟨10, 0⟩, ⟨1, 1⟩, ⟨0, 10⟩], by norm_num⟩ 45) ∧
    ((0 : ℕ) ∉ Polygon.get_sharp_angles
      ⟨[⟨0, 0⟩, ⟨10, 0⟩, ⟨1, 1⟩, ⟨0, 10⟩], by norm_num⟩ 45) ∧
    ((2 : ℕ) ∉ Polygon.get_sharp_angles
      ⟨[⟨0, 0⟩, ⟨10, 0⟩, ⟨1, 1⟩, ⟨0, 10⟩], by norm_num⟩ 45) :=
  ⟨sharp_angles_mem_one, sharp_angles_mem_three, sharp_angles_not_mem_zero,
    sharp_angles_not_mem_two⟩

/-- C6 (counterexample): contrary to the claim, the index set returned
for the E2 polygon at threshold 45° does not contain the cusp vertex 2. -/
theorem get_sharp_angles_E2_cusp_not_reported :
    (2 : ℕ) ∉ Polygon.get_sharp_angles
      ⟨[⟨0, 0⟩, ⟨10, 0⟩, ⟨1, 1⟩, ⟨0, 10⟩], by norm_num⟩ 45 :=
  sharp_angles_not_mem_two


namespace SAState

/-- `setPosition` never changes the component count. -/
theorem setPosition_length (comps : List Component) (i : ℕ) (pos : Point ℝ) :
    (setPosition comps i pos).length = comps.length := by
  unfold setPosition
  cases h : comps.get? i with
  | none => rfl
  | some c => simp [List.length_set]

/-- `make_random_move` never touches the cost bookkeeping: best and
current cost, the log, the config, the best-position snapshot and the
component count all survive it. -/
theorem make_random_move_fields (s : SAState) :
    ((make_random_move s).1.best_cost = s.best_cost) ∧
    ((make_random_move s).1.current_cost = s.current_cost) ∧
    ((make_random_move s).1.cost_log = s.cost_log) ∧
    ((make_random_move s).1.config = s.config) ∧
    ((make_random_move s).1.best_positions = s.best_positions) ∧
    ((make_random_move s).1.components.length = s.components.length) := by
  simp only [make_random_move]
  split_ifs <;> simp [setPosition_length]

/-- `accept_probability` only consumes one random draw: every other
field survives it. -/
theorem accept_probability_fields (s : SAState) (d : ℝ) :
    ((accept_probability s d).1.best_cost = s.best_cost) ∧
    ((accept_probability s d).1.current_cost = s.current_cost) ∧
    ((accept_probability s d).1.cost_log = s.cost_log) ∧
    ((accept_probability s d).1.config = s.config) ∧
    ((accept_probability s d).1.best_positions = s.best_positions) ∧
    ((accept_probability s d).1.components = s.components) := by
  unfold accept_probability
  split_ifs <;> simp

/-- `reject_move` restores a position and nothing else: the cost
bookkeeping and the component count survive it. -/
theorem reject_move_fields (s : SAState) :
    ((reject_move s).best_cost = s.best_cost) ∧
    ((reject_move s).current_cost = s.current_cost) ∧
    ((reject_move s).cost_log = s.cost_log) ∧
    ((reject_move s).config = s.config) ∧
    ((reject_move s).best_positions = s.best_positions) ∧
    ((reject_move s).components.length = s.components.length) := by
  unfold reject_move
  split_ifs <;> simp [setPosition_length]



/-- One annealing iteration preserves the best-cost invariant: the
incumbent stays below the current cost, remains one of the logged
evaluations and a lower bound of the log, the best-position snapshot
keeps the component count, the incumbent never increases, and the
config is untouched. -/
theorem saStep_inv (s : SAState)
    (h1 : s.best_cost.total_cost ≤ s.current_cost.total_cost)
    (h2 : s.best_cost ∈ s.cost_log)
    (h3 : ∀ c ∈ s.cost_log, s.best_cost.total_cost ≤ c.total_cost)
    (h4 : s.best_positions.length = s.components.length) :
    (saStep s).best_cost.total_cost ≤ (saStep s).current_cost.total_cost ∧
    (saStep s).best_cost ∈ (saStep s).cost_log ∧
    (∀ c ∈ (saStep s).cost_log, (saStep s).best_cost.total_cost ≤ c.total_cost) ∧
    (saStep s).best_positions.length = (saStep s).components.length ∧
    (saStep s).best_cost.total_cost ≤ s.best_cost.total_cost ∧
    (saStep s).config = s.config := by
  obtain ⟨hb, hc, hl, hcfg, hbp, hlen⟩ := make_random_move_fields s
  unfold saStep
  rcases hmk : make_random_move s with ⟨s1, moved⟩
  rw [hmk] at hb hc hl hcfg hbp hlen
  simp only at hb hc hl hcfg hbp hlen ⊢
  cases moved with
  | false =>
    simp only [if_neg (by simp : ¬ (false = true))]
    rw [hb, hc, hl, hbp, hlen, hcfg]
    exact ⟨h1, h2, h3, h4, le_refl _, rfl⟩
  | true =>
    rw [if_pos rfl]
    by_cases hd : s1.evaluateCost.total_cost - s1.current_cost.total_cost < 0
    · rw [if_pos hd]
      dsimp only
      rw [if_pos rfl]
      by_cases hlt : s1.evaluateCost.total_cost < s1.best_cost.total_cost
      · rw [if_pos hlt]
        dsimp only
        refine ⟨le_refl _, by simp, ?_, by simp, by rw [← hb]; exact hlt.le,
          hcfg⟩
        intro c hcm
        rcases List.mem_append.mp hcm with hco | hce
        · have := h3 c (hl ▸ hco)
          have hbb := hb ▸ hlt
          linarith
        · rw [List.mem_singleton.mp hce]
      · rw [if_neg hlt]
        dsimp only
        push_neg at hlt
        refine ⟨hlt, ?_, ?_, ?_, by rw [hb], hcfg⟩
        · exact List.mem_append_left _ (hl ▸ hb ▸ h2)
        · intro c hcm
          rcases List.mem_append.mp hcm with hco | hce
          · exact hb ▸ h3 c (hl ▸ hco)
          · rw [List.mem_singleton.mp hce]; exact hlt
        · rw [hbp, hlen]; exact h4
    · rw [if_neg hd]
      push_neg at hd
      obtain ⟨f1, f2, f3, f4, f5, f6⟩ := accept_probability_fields
        { s1 with total_moves := s1.total_moves + 1,
                  cost_log := s1.cost_log ++ [s1.evaluateCost] }
        (s1.evaluateCost.total_cost - s1.current_cost.total_cost)
      rcases hap : accept_probability
        { s1 with total_moves := s1.total_moves + 1,
                  cost_log := s1.cost_log ++ [s1.evaluateCost] }
        (s1.evaluateCost.total_cost - s1.current_cost.total_cost) with ⟨s3, acc⟩
      rw [hap] at f1 f2 f3 f4 f5 f6
      simp only at f1 f2 f3 f4 f5 f6
      dsimp only
      cases acc with
      | true =>
        rw [if_pos rfl]
        by_cases hlt : s1.evaluateCost.total_cost < s3.best_cost.total_cost
        · rw [if_pos hlt]
          dsimp only
          rw [f1] at hlt
          refine ⟨le_refl _, ?_, ?_, by simp, by rw [← hb]; exact hlt.le, ?_⟩
          · rw [f3]; simp
          · intro c hcm
            rw [f3] at hcm
            rcases List.mem_append.mp hcm with hco | hce
            · have := h3 c (hl ▸ hco)
              have hbb := hb ▸ hlt
              linarith
            · rw [List.mem_singleton.mp hce]
          · rw [f4, hcfg]
        · rw [if_neg hlt]
          dsimp only
          push_neg at hlt
          rw [f1] at hlt
          refine ⟨?_, ?_, ?_, ?_, by rw [f1, hb], ?_⟩
          · rw [f1]; exact hlt
          · rw [f1, f3]
            exact List.mem_append_left _ (hl ▸ hb ▸ h2)
          · intro c hcm
            rw [f3] at hcm
            rw [f1]
            rcases List.mem_append.mp hcm with hco | hce
            · exact hb ▸ h3 c (hl ▸ hco)
            · rw [List.mem_singleton.mp hce]; exact hlt
          · rw [f5, f6, hbp]
            simp [hlen, h4]
          · rw [f4, hcfg]
      | false =>
        rw [if_neg (by simp : ¬ (false = true))]
        obtain ⟨g1, g2, g3, g4, g5, g6⟩ := reject_move_fields s3
        have hEc : s.best_cost.total_cost ≤ s1.evaluateCost.total_cost := by
          have := hc ▸ hd
          linarith [h1]
        refine ⟨?_, ?_, ?_, ?_, ?_, ?_⟩
        · rw [g1, g2, f1, f2, hb, hc]; exact h1
        · rw [g1, g3, f1, f3, hb, hl]
          exact List.mem_append_left _ h2
        · intro c hcm
          rw [g3, f3, hl] at hcm
          rw [g1, f1, hb]
          rcases List.mem_append.mp hcm with hco | hce
          · exact h3 c hco
          · rw [List.mem_singleton.mp hce]; exact hEc
        · rw [g5, g6, f5, f6, hbp]
          simp [hlen, h4]
        · rw [g1, f1, hb]
        · rw [g4, f4, hcfg]



/-- Unconditionally, one annealing iteration never increases
`best_cost.total_cost`: the incumbent is only overwritten by a strictly
smaller evaluation. -/
theorem saStep_best_mono (s : SAState) :
    (saStep s).best_cost.total_cost ≤ s.best_cost.total_cost := by
  obtain ⟨hb, hc, hl, hcfg, hbp, hlen⟩ := make_random_move_fields s
  unfold saStep
  rcases hmk : make_random_move s with ⟨s1, moved⟩
  rw [hmk] at hb hc hl hcfg hbp hlen
  simp only at hb hc hl hcfg hbp hlen ⊢
  cases moved with
  | false =>
    simp only [if_neg (by simp : ¬ (false = true))]
    rw [hb]
  | true =>
    rw [if_pos rfl]
    by_cases hd : s1.evaluateCost.total_cost - s1.current_cost.total_cost < 0
    · rw [if_pos hd]
      dsimp only
      rw [if_pos rfl]
      by_cases hlt : s1.evaluateCost.total_cost < s1.best_cost.total_cost
      · rw [if_pos hlt]
        dsimp only
        rw [← hb]
        exact hlt.le
      · rw [if_neg hlt]
        dsimp only
        rw [hb]
    · rw [if_neg hd]
      obtain ⟨f1, f2, f3, f4, f5, f6⟩ := accept_probability_fields
        { s1 with total_moves := s1.total_moves + 1,
                  cost_log := s1.cost_log ++ [s1.evaluateCost] }
        (s1.evaluateCost.total_cost - s1.current_cost.total_cost)
      rcases hap : accept_probability
        { s1 with total_moves := s1.total_moves + 1,
                  cost_log := s1.cost_log ++ [s1.evaluateCost] }
        (s1.evaluateCost.total_cost - s1.current_cost.total_cost) with ⟨s3, acc⟩
      rw [hap] at f1 f2 f3 f4 f5 f6
      simp only at f1 f2 f3 f4 f5 f6
      dsimp only
      cases acc with
      | true =>
        rw [if_pos rfl]
        by_cases hlt : s1.evaluateCost.total_cost < s3.best_cost.total_cost
        · rw [if_pos hlt]
          dsimp only
          rw [f1] at hlt
          rw [← hb]
          exact hlt.le
        · rw [if_neg hlt]
          dsimp only
          rw [f1, hb]
      | false =>
        rw [if_neg (by simp : ¬ (false = true))]
        obtain ⟨g1, g2, g3, g4, g5, g6⟩ := reject_move_fields s3
        rw [g1, f1, hb]

/-- The annealing loop preserves the best-cost invariant and never
increases the incumbent. -/
theorem saLoop_inv (n : ℕ) (s : SAState)
    (h1 : s.best_cost.total_cost ≤ s.current_cost.total_cost)
    (h2 : s.best_cost ∈ s.cost_log)
    (h3 : ∀ c ∈ s.cost_log, s.best_cost.total_cost ≤ c.total_cost)
    (h4 : s.best_positions.length = s.components.length) :
    (saLoop n s).best_cost.total_cost ≤ (saLoop n s).current_cost.total_cost ∧
    (saLoop n s).best_cost ∈ (saLoop n s).cost_log ∧
    (∀ c ∈ (saLoop n s).cost_log,
      (saLoop n s).best_cost.total_cost ≤ c.total_cost) ∧
    (saLoop n s).best_positions.length = (saLoop n s).components.length ∧
    (saLoop n s).best_cost.total_cost ≤ s.best_cost.total_cost := by
  induction n generalizing s with
  | zero => exact ⟨h1, h2, h3, h4, le_refl _⟩
  | succ n ih =>
    unfold saLoop
    obtain ⟨g1, g2, g3, g4, g5, g6⟩ := saStep_inv s h1 h2 h3 h4
    by_cases ht :
      (saStep s).current_temperature < (saStep s).config.final_temperature
    · rw [if_pos ht]
      exact ⟨g1, g2, g3, g4, g5⟩
    · rw [if_neg ht]
      obtain ⟨k1, k2, k3, k4, k5⟩ := ih (saStep s) g1 g2 g3 g4
      exact ⟨k1, k2, k3, k4, k5.trans g5⟩

/-- Restoring a snapshot of matching length makes the component
positions equal the snapshot. -/
theorem restorePositions_map (comps : List Component) (best : List (Point ℝ))
    (h : best.length = comps.length) :
    (restorePositions comps best).map (fun c => c.position) = best := by
  unfold restorePositions
  induction comps generalizing best with
  | nil =>
    cases best with
    | nil => rfl
    | cons p ps => simp at h
  | cons c cs ih =>
    cases best with
    | nil => simp at h
    | cons p ps =>
      simp only [List.zipWith_cons_cons, List.map_cons, List.cons.injEq]
      exact ⟨trivial, ih ps (by simpa using h)⟩

/-- C7: `optimize()` returns its final `best_cost`; that cost is one of
the evaluations logged during the run and a lower bound of all of them
(so it is the minimum cost seen), the components end at the
`best_positions` snapshot taken when that minimum was recorded, and the
per-iteration sequence of `best_cost.total_cost` values is
non-increasing (`saStep` never increases it). -/
theorem optimize_returns_min_seen (s : SAState) :
    (optimize s).1 = (optimize s).2.best_cost ∧
    (optimize s).2.best_cost ∈ (optimize s).2.cost_log ∧
    (∀ c ∈ (optimize s).2.cost_log,
      (optimize s).2.best_cost.total_cost ≤ c.total_cost) ∧
    (optimize s).2.components.map (fun c => c.position) =
      (optimize s).2.best_positions ∧
    (∀ t : SAState, (saStep t).best_cost.total_cost ≤ t.best_cost.total_cost) := by
  unfold optimize
  dsimp only
  obtain ⟨k1, k2, k3, k4, k5⟩ := saLoop_inv s.config.max_iterations
    { s with best_positions := s.components.map (fun c => c.position),
             current_cost := s.evaluateCost,
             best_cost := s.evaluateCost,
             current_temperature := s.config.initial_temperature,
             cost_log := [s.evaluateCost] }
    (le_refl _) (by simp) (by simp) (by simp)
  refine ⟨rfl, k2, k3, ?_, fun t => saStep_best_mono t⟩
  exact restorePositions_map _ _ k4



/-- C3: the optimizer outcome depends on the stream drawn from the
constructor's hidden `std::random_device` seed, which the class gives no
way to fix: two optimizers differing only in that stream already place
the same origin component at different positions, and `optimize()`
(here with `max_iterations = 0`) returns different final positions. -/
theorem optimize_depends_on_hidden_seed :
    (optimize (add_component
        (SimulatedAnnealingOptimizer.new ⟨0, 0, 10, 10⟩
          ⟨1, 1, 1, 1, 1, 100, 9 / 10, 1, 0⟩ (fun _ => 0) (fun _ => 1))
        ⟨"cpu", ⟨0, 0, 2, 2⟩, ⟨0, 0⟩, 0, false⟩)).2.components.map
      (fun c => c.position) ≠
    (optimize (add_component
        (SimulatedAnnealingOptimizer.new ⟨0, 0, 10, 10⟩
          ⟨1, 1, 1, 1, 1, 100, 9 / 10, 1, 0⟩ (fun _ => 0) (fun _ => 2))
        ⟨"cpu", ⟨0, 0, 2, 2⟩, ⟨0, 0⟩, 0, false⟩)).2.components.map
      (fun c => c.position) := by
  simp [optimize, saLoop, add_component, generate_random_position,
    SimulatedAnnealingOptimizer.new, restorePositions, Point.mk.injEq]

end SAState

end ZLayout
